import Mathlib

/-!
Verification of the BitSpeed-Backend identity resolver (`src/server/index.js`).

The whole observable behaviour of the service is the `POST /identify` handler,
which reads and writes a single SQLite table `Contact`.  We embed the table as
a list of rows kept in insertion order (SQLite rowid order: `id` is the
`INTEGER PRIMARY KEY AUTOINCREMENT`, so stored order coincides with ascending
`id` order), and the handler as a pure function from a store, a request body
and a request timestamp to a result and an updated store.

Timestamps: the handler stamps rows with `new Date().toISOString()`; ISO-8601
strings compare lexicographically exactly as the instants they denote, so we
model them as natural numbers.  All stamps taken during one request are
modelled by the single request time `t`.
-/

namespace BitSpeed

/-- The `linkPrecedence` column; the schema `CHECK` constraint restricts it to
the two values `'primary'` and `'secondary'`. -/
inductive LinkPrecedence where
  | primary
  | secondary
deriving DecidableEq, Repr

/-- One row of the `Contact` table.  `email`, `phoneNumber`, `linkedId` and
`deletedAt` are nullable columns, hence `Option`. -/
structure Contact where
  id : Nat
  phoneNumber : Option String := none
  email : Option String := none
  linkedId : Option Nat := none
  linkPrecedence : LinkPrecedence
  createdAt : Nat
  updatedAt : Nat
  deletedAt : Option Nat := none
deriving DecidableEq, Repr

/-- The store: the `Contact` table in rowid (insertion) order, together with
the next value of the `AUTOINCREMENT` id counter (SQLite starts it at 1). -/
structure DB where
  rows : List Contact
  nextId : Nat
deriving DecidableEq, Repr

/-- The freshly created table. -/
def emptyDB : DB := ⟨[], 1⟩

/-- JavaScript truthiness of an optional string: `undefined`, `null` and the
empty string are falsy (`if (!email)`, `if (email)`, `.filter(Boolean)`). -/
def truthy : Option String → Bool
  | none => false
  | some s => !(s == "")

/-- SQL three-valued equality `col = param` collapsed to a Bool: comparison
with `NULL` (an absent value on either side) is never true. -/
def sqlEq : Option String → Option String → Bool
  | some a, some b => a == b
  | _, _ => false

/-- Line 45: `WHERE email = ? OR phoneNumber = ?` for one row. -/
def matchesRequest (email phoneNumber : Option String) (c : Contact) : Bool :=
  sqlEq c.email email || sqlEq c.phoneNumber phoneNumber

/-- Lines 44-47: the candidate set, in stored (id) order. -/
def matchingContacts (db : DB) (email phoneNumber : Option String) : List Contact :=
  db.rows.filter (matchesRequest email phoneNumber)

/-- Lines 72-78, one candidate: a primary contributes its own `id`, a
secondary its `linkedId`.  A secondary whose `linkedId` is SQL `NULL` would
contribute `null` to the JS `Set`, which the `id IN (...)` list can never
match; ids start at 1, so 0 models that dead value. -/
def rootId (c : Contact) : Nat :=
  match c.linkPrecedence with
  | .primary => c.id
  | .secondary => c.linkedId.getD 0

/-- Insertion into a JS `Set` keeps first-occurrence order. -/
def insertIdIfAbsent (l : List Nat) (x : Nat) : List Nat :=
  if x ∈ l then l else l ++ [x]

/-- Lines 71-78: `primaryIds`, the distinct root ids in discovery order. -/
def primaryIdsOf (cs : List Contact) : List Nat :=
  cs.foldl (fun s c => insertIdIfAbsent s (rootId c)) []

/-- Stable insertion into a list sorted by `createdAt`: the inserted row goes
before the first row with a `createdAt` not smaller than its own, so rows with
equal `createdAt` keep their relative order. -/
def insertByCreatedAt (r : Contact) : List Contact → List Contact
  | [] => [r]
  | x :: xs =>
    if r.createdAt ≤ x.createdAt then r :: x :: xs else x :: insertByCreatedAt r xs

/-- Stable sort by `createdAt` ascending. -/
def sortByCreatedAt : List Contact → List Contact
  | [] => []
  | r :: rs => insertByCreatedAt r (sortByCreatedAt rs)

/-- Lines 82-84: `SELECT * FROM Contact WHERE id IN (...) ORDER BY createdAt
ASC`.  The rows selected by the id list come out of the table in id order;
the `ORDER BY` is modelled as a stable sort on `createdAt`, so rows with equal
`createdAt` stay in ascending id order. -/
def fetchPrimaries (db : DB) (ids : List Nat) : List Contact :=
  sortByCreatedAt (db.rows.filter (fun r => r.id ∈ ids))

/-- Lines 96-99, the first `UPDATE` for one losing primary, acting on one row:
`SET linkPrecedence = 'secondary', linkedId = w, updatedAt = t WHERE id =
secId`. -/
def demoteLosing (w t secId : Nat) (r : Contact) : Contact :=
  if r.id == secId then
    { r with linkPrecedence := .secondary, linkedId := some w, updatedAt := t }
  else r

/-- Lines 101-104, the second `UPDATE` for one losing primary, acting on one
row: `SET linkedId = w, updatedAt = t WHERE linkedId = secId`. -/
def repointChild (w t secId : Nat) (r : Contact) : Contact :=
  if r.linkedId == some secId then { r with linkedId := some w, updatedAt := t }
  else r

/-- One iteration of the merge loop (lines 94-105) acting on one row: the
demotion update runs to completion before the re-pointing update. -/
def mergeStep (w t secId : Nat) (r : Contact) : Contact :=
  repointChild w t secId (demoteLosing w t secId r)

/-- Lines 90-106: the merge loop over `primaries.slice(1)` (vacuous when there
is at most one primary, exactly as the `length > 1` guard makes it). -/
def mergeLoop (w t : Nat) (rows : List Contact) (secs : List Contact) : List Contact :=
  secs.foldl (fun rs sec => rs.map (mergeStep w t sec.id)) rows

/-- Lines 110-113: `WHERE id = ? OR linkedId = ?` — the cluster of primary
id `pid`. -/
def clusterRows (rows : List Contact) (pid : Nat) : List Contact :=
  rows.filter (fun r => r.id == pid || r.linkedId == some pid)

/-- JavaScript `.filter(Boolean)` on an array of strings-or-nulls: keeps the
truthy entries. -/
def jsFilterBoolean (l : List (Option String)) : List String :=
  l.filterMap fun o => match o with
    | none => none
    | some s => if s == "" then none else some s

/-- Insertion into a JS `Set` of strings. -/
def insertStrIfAbsent (l : List String) (x : String) : List String :=
  if x ∈ l then l else l ++ [x]

/-- `new Set(xs)`: deduplicate keeping first-occurrence order. -/
def jsSet (xs : List String) : List String :=
  xs.foldl insertStrIfAbsent []

/-- Line 116: `new Set(allLinkedContacts.map(c => c.email).filter(Boolean))`. -/
def existingEmailsOf (cluster : List Contact) : List String :=
  jsSet (jsFilterBoolean (cluster.map (·.email)))

/-- Line 117: same for phone numbers. -/
def existingPhonesOf (cluster : List Contact) : List String :=
  jsSet (jsFilterBoolean (cluster.map (·.phoneNumber)))

/-- Lines 119-121: a truthy request field whose value is not yet in the
corresponding known set. -/
def hasNewData (email phoneNumber : Option String)
    (emails phones : List String) : Bool :=
  (match email with
   | none => false
   | some e => !(e == "") && !(emails.contains e)) ||
  (match phoneNumber with
   | none => false
   | some p => !(p == "") && !(phones.contains p))

/-- Lines 135-138: `SELECT id FROM Contact WHERE linkedId = ?`. -/
def finalSecondaryIds (rows : List Contact) (pid : Nat) : List Nat :=
  (rows.filter (fun r => r.linkedId == some pid)).map (·.id)

/-- The `contact` object of a success response (both the new-customer shape of
lines 57-64 and the general shape of lines 140-147); note the field name
`primaryContatctId` spelled exactly as the code spells it. -/
structure ContactResponse where
  primaryContatctId : Nat
  emails : List String
  phoneNumbers : List String
  secondaryContactIds : List Nat
deriving DecidableEq, Repr

/-- Outcome of one request: HTTP 400 (line 38), HTTP 500 via the catch block
(line 151), or HTTP 200 with a contact object. -/
inductive IdentifyResult where
  | invalidRequest
  | serverError
  | ok (contact : ContactResponse)
deriving DecidableEq, Repr

/-- Lines 50-65, the brand-new-customer branch: insert one primary row with
the given fields and answer with its id and empty `secondaryContactIds`
(`[email].filter(Boolean)` at lines 60-61). -/
def newCustomer (db : DB) (email phoneNumber : Option String) (t : Nat) :
    IdentifyResult × DB :=
  let row : Contact :=
    { id := db.nextId, email := email, phoneNumber := phoneNumber,
      linkedId := none, linkPrecedence := .primary,
      createdAt := t, updatedAt := t }
  (.ok { primaryContatctId := db.nextId,
         emails := jsFilterBoolean [email],
         phoneNumbers := jsFilterBoolean [phoneNumber],
         secondaryContactIds := [] },
   ⟨db.rows ++ [row], db.nextId + 1⟩)

/-- Lines 88-147, the general branch once the primaries are fetched as
`primaryContact :: rest`: merge the losing primaries into the winner, reload
the cluster, insert one secondary row when the request carries a new fact
(adding the truthy request values to the response sets, lines 128-130), and
assemble the response from the final rows. -/
def identifyFound (db : DB) (email phoneNumber : Option String) (t : Nat)
    (primaryContact : Contact) (rest : List Contact) : IdentifyResult × DB :=
  let rows1 := mergeLoop primaryContact.id t db.rows rest
  let cluster := clusterRows rows1 primaryContact.id
  let existingEmails := existingEmailsOf cluster
  let existingPhones := existingPhonesOf cluster
  if hasNewData email phoneNumber existingEmails existingPhones then
    let row : Contact :=
      { id := db.nextId, email := email, phoneNumber := phoneNumber,
        linkedId := some primaryContact.id, linkPrecedence := .secondary,
        createdAt := t, updatedAt := t }
    (.ok { primaryContatctId := primaryContact.id,
           emails := if truthy email then
               insertStrIfAbsent existingEmails (email.getD "") else existingEmails,
           phoneNumbers := if truthy phoneNumber then
               insertStrIfAbsent existingPhones (phoneNumber.getD "") else existingPhones,
           secondaryContactIds := finalSecondaryIds (rows1 ++ [row]) primaryContact.id },
     ⟨rows1 ++ [row], db.nextId + 1⟩)
  else
    (.ok { primaryContatctId := primaryContact.id,
           emails := existingEmails,
           phoneNumbers := existingPhones,
           secondaryContactIds := finalSecondaryIds rows1 primaryContact.id },
     ⟨rows1, db.nextId⟩)

/-- The whole `POST /identify` handler (lines 33-153) at request time `t`:
returns the response and the updated store.  When the candidate set is
non-empty but the fetched primary list is empty (impossible in reachable
states), line 112 dereferences `undefined` before any write and the catch
block answers 500 with the store untouched. -/
def identify (db : DB) (email phoneNumber : Option String) (t : Nat) :
    IdentifyResult × DB :=
  if !truthy email && !truthy phoneNumber then
    (.invalidRequest, db)
  else
    let matching := matchingContacts db email phoneNumber
    if matching.length == 0 then
      newCustomer db email phoneNumber t
    else
      match fetchPrimaries db (primaryIdsOf matching) with
      | [] => (.serverError, db)
      | primaryContact :: rest => identifyFound db email phoneNumber t primaryContact rest

/-- Minimal JSON values, enough to talk about the shape of the response
bodies the handler passes to `res.json(...)`. -/
inductive Json where
  | num (n : Nat)
  | str (s : String)
  | arr (elems : List Json)
  | obj (fields : List (String × Json))

/-- The JSON body sent for a success response (lines 57-64 and lines 140-147
build exactly this shape): a single top-level field `contact` whose value
carries the misspelled `primaryContatctId` plus the three lists. -/
def contactJson (r : ContactResponse) : Json :=
  .obj [("contact", .obj
    [("primaryContatctId", .num r.primaryContatctId),
     ("emails", .arr (r.emails.map .str)),
     ("phoneNumbers", .arr (r.phoneNumbers.map .str)),
     ("secondaryContactIds", .arr (r.secondaryContactIds.map .num))])]

/-- The field names of a JSON object, in order. -/
def topFields : Json → List String
  | .obj fields => fields.map (·.1)
  | _ => []

/-- A sample primary row, for instantiating the theorems at concrete inputs. -/
def row1 : Contact :=
  { id := 1, email := some "a@x", phoneNumber := some "1", linkedId := none,
    linkPrecedence := .primary, createdAt := 10, updatedAt := 10 }

/-- A second, later sample primary row. -/
def row2 : Contact :=
  { id := 2, email := some "c@x", phoneNumber := some "9", linkedId := none,
    linkPrecedence := .primary, createdAt := 40, updatedAt := 40 }

/-- A sample store holding one primary contact. -/
def dbOne : DB := ⟨[row1], 2⟩

/-- A sample store holding two independent primary contacts. -/
def dbTwo : DB := ⟨[row1, row2], 3⟩

/-- The order in which the resolver ranks the fetched primaries: `createdAt`
ascending, ties by `id` ascending. -/
def lexLe (a b : Contact) : Prop :=
  a.createdAt < b.createdAt ∨ (a.createdAt = b.createdAt ∧ a.id ≤ b.id)

/-- Structural invariant of the store maintained by the handler: ids are
strictly increasing in stored order and below the id counter, every
secondary's `linkedId` resolves in one hop to a primary row, and primaries
carry no `linkedId`. -/
structure Inv (db : DB) : Prop where
  nextPos : 0 < db.nextId
  idsSorted : db.rows.Pairwise (fun a b => a.id < b.id)
  idsBound : ∀ r ∈ db.rows, 0 < r.id ∧ r.id < db.nextId
  secLink : ∀ c ∈ db.rows, c.linkPrecedence = .secondary →
      ∃ q ∈ db.rows, c.linkedId = some q.id ∧ q.linkPrecedence = .primary
  priNoLink : ∀ c ∈ db.rows, c.linkPrecedence = .primary → c.linkedId = none

/-- Stores reachable from the fresh table by any sequence of `/identify`
requests. -/
inductive Reachable : DB → Prop where
  | base : Reachable emptyDB
  | step (db : DB) (e p : Option String) (t : Nat) :
      Reachable db → Reachable (identify db e p t).2

/-- The merge loop acting on one row: the composition of the per-losing-primary
updates, in loop order. -/
def applyMerge (w t : Nat) (secs : List Contact) (r : Contact) : Contact :=
  secs.foldl (fun r sec => mergeStep w t sec.id r) r

/-- Facts holding of the fetched primary list `primaryContact :: rest` when
the store satisfies the invariant: it consists exactly of the rows whose id
is among the resolved primary ids, all of them primary rows, with pairwise
distinct ids. -/
structure MergeCtx (db : DB) (pids : List Nat) (w : Contact) (rest : List Contact) : Prop where
  fetch_iff : ∀ r, r ∈ w :: rest ↔ r ∈ db.rows ∧ r.id ∈ pids
  all_pri : ∀ r ∈ w :: rest, r.linkPrecedence = .primary
  ids_nodup : ((w :: rest).map (·.id)).Nodup

/-! ## Basic membership lemmas -/

theorem mem_insertStrIfAbsent {l : List String} {x s : String} :
    s ∈ insertStrIfAbsent l x ↔ s ∈ l ∨ s = x := by
  unfold insertStrIfAbsent
  by_cases h : x ∈ l
  · rw [if_pos h]
    constructor
    · exact Or.inl
    · rintro (hs | rfl) <;> assumption
  · rw [if_neg h]
    simp

theorem mem_foldl_insertStr {xs acc : List String} {s : String} :
    s ∈ xs.foldl insertStrIfAbsent acc ↔ s ∈ acc ∨ s ∈ xs := by
  induction xs generalizing acc with
  | nil => simp
  | cons x xs ih =>
    rw [List.foldl_cons, ih, mem_insertStrIfAbsent]
    simp [or_assoc]

theorem mem_jsSet {xs : List String} {s : String} : s ∈ jsSet xs ↔ s ∈ xs := by
  unfold jsSet
  rw [mem_foldl_insertStr]
  simp

theorem mem_jsFilterBoolean {l : List (Option String)} {s : String} :
    s ∈ jsFilterBoolean l ↔ some s ∈ l ∧ s ≠ "" := by
  unfold jsFilterBoolean
  rw [List.mem_filterMap]
  constructor
  · rintro ⟨o, ho, hv⟩
    match o with
    | none => simp at hv
    | some v =>
      by_cases hv0 : v = "" <;> simp [hv0] at hv
      exact ⟨hv ▸ ho, hv ▸ hv0⟩
  · rintro ⟨hmem, hne⟩
    exact ⟨some s, hmem, by simp [hne]⟩

theorem mem_existingEmailsOf {cl : List Contact} {s : String} :
    s ∈ existingEmailsOf cl ↔ (∃ r ∈ cl, r.email = some s) ∧ s ≠ "" := by
  unfold existingEmailsOf
  rw [mem_jsSet, mem_jsFilterBoolean]
  simp [eq_comm]

theorem mem_existingPhonesOf {cl : List Contact} {s : String} :
    s ∈ existingPhonesOf cl ↔ (∃ r ∈ cl, r.phoneNumber = some s) ∧ s ≠ "" := by
  unfold existingPhonesOf
  rw [mem_jsSet, mem_jsFilterBoolean]
  simp [eq_comm]

theorem mem_insertIdIfAbsent {l : List Nat} {x y : Nat} :
    y ∈ insertIdIfAbsent l x ↔ y ∈ l ∨ y = x := by
  unfold insertIdIfAbsent
  by_cases h : x ∈ l
  · rw [if_pos h]
    constructor
    · exact Or.inl
    · rintro (hs | rfl) <;> assumption
  · rw [if_neg h]
    simp

theorem mem_foldl_insertId {cs : List Contact} {acc : List Nat} {x : Nat} :
    x ∈ cs.foldl (fun s c => insertIdIfAbsent s (rootId c)) acc ↔
      x ∈ acc ∨ ∃ c ∈ cs, rootId c = x := by
  induction cs generalizing acc with
  | nil => simp
  | cons c cs ih =>
    rw [List.foldl_cons, ih, mem_insertIdIfAbsent]
    constructor
    · rintro ((h | rfl) | ⟨d, hd, rfl⟩)
      · exact Or.inl h
      · exact Or.inr ⟨c, List.mem_cons_self c cs, rfl⟩
      · exact Or.inr ⟨d, List.mem_cons_of_mem c hd, rfl⟩
    · rintro (h | ⟨d, hd, rfl⟩)
      · exact Or.inl (Or.inl h)
      · rcases List.mem_cons.1 hd with rfl | hd
        · exact Or.inl (Or.inr rfl)
        · exact Or.inr ⟨d, hd, rfl⟩

theorem mem_primaryIdsOf {cs : List Contact} {x : Nat} :
    x ∈ primaryIdsOf cs ↔ ∃ c ∈ cs, rootId c = x := by
  unfold primaryIdsOf
  rw [mem_foldl_insertId]
  simp

theorem foldl_insertId_const {cs : List Contact} {acc : List Nat} {x : Nat}
    (hall : ∀ c ∈ cs, rootId c = x) (hacc : x ∈ acc) :
    cs.foldl (fun s c => insertIdIfAbsent s (rootId c)) acc = acc := by
  induction cs with
  | nil => rfl
  | cons c cs ih =>
    rw [List.foldl_cons, hall c (List.mem_cons_self c cs)]
    rw [insertIdIfAbsent, if_pos hacc]
    exact ih fun d hd => hall d (List.mem_cons_of_mem c hd)

theorem primaryIdsOf_const {cs : List Contact} {x : Nat}
    (hne : cs ≠ []) (hall : ∀ c ∈ cs, rootId c = x) :
    primaryIdsOf cs = [x] := by
  match cs, hne with
  | c :: cs, _ =>
    unfold primaryIdsOf
    rw [List.foldl_cons, hall c (List.mem_cons_self c cs)]
    show cs.foldl _ (insertIdIfAbsent [] x) = [x]
    rw [insertIdIfAbsent, if_neg (by simp)]
    exact foldl_insertId_const (fun d hd => hall d (List.mem_cons_of_mem c hd))
      (by simp)

/-! ## Branch equations for the handler -/

theorem validation_false {e p : Option String} (hv : (truthy e || truthy p) = true) :
    (!truthy e && !truthy p) = false := by
  cases he : truthy e <;> cases hp : truthy p <;> simp_all

theorem identify_of_no_match (db : DB) (e p : Option String) (t : Nat)
    (hv : (truthy e || truthy p) = true)
    (hm : matchingContacts db e p = []) :
    identify db e p t = newCustomer db e p t := by
  unfold identify
  rw [validation_false hv, hm]
  simp

theorem identify_of_found (db : DB) (e p : Option String) (t : Nat)
    (w : Contact) (rest : List Contact)
    (hv : (truthy e || truthy p) = true)
    (hm : matchingContacts db e p ≠ [])
    (hf : fetchPrimaries db (primaryIdsOf (matchingContacts db e p)) = w :: rest) :
    identify db e p t = identifyFound db e p t w rest := by
  unfold identify
  rw [validation_false hv]
  simp only [Bool.false_eq_true, if_false]
  rw [if_neg (by simpa using hm), hf]

theorem identify_of_fetch_nil (db : DB) (e p : Option String) (t : Nat)
    (hv : (truthy e || truthy p) = true)
    (hm : matchingContacts db e p ≠ [])
    (hf : fetchPrimaries db (primaryIdsOf (matchingContacts db e p)) = []) :
    identify db e p t = (.serverError, db) := by
  unfold identify
  rw [validation_false hv]
  simp only [Bool.false_eq_true, if_false]
  rw [if_neg (by simpa using hm), hf]

theorem identify_of_invalid (db : DB) (e p : Option String) (t : Nat)
    (hv : ¬ (truthy e || truthy p) = true) :
    identify db e p t = (.invalidRequest, db) := by
  have hb : (!truthy e && !truthy p) = true := by
    cases he : truthy e <;> cases hp : truthy p <;> simp_all
  unfold identify
  rw [if_pos hb]

theorem truthy_iff {e : Option String} :
    truthy e = true ↔ ∃ v, e = some v ∧ v ≠ "" := by
  cases e <;> simp [truthy]

theorem ne_empty_of_mem_addRequestValue {l : List String} {e : Option String}
    {s : String} (hl : ∀ x ∈ l, x ≠ "")
    (hs : s ∈ (if truthy e then insertStrIfAbsent l (e.getD "") else l)) :
    s ≠ "" := by
  by_cases he : truthy e = true
  · rw [if_pos he] at hs
    rcases mem_insertStrIfAbsent.1 hs with h | rfl
    · exact hl s h
    · obtain ⟨v, rfl, hv⟩ := truthy_iff.1 he
      simpa using hv
  · rw [if_neg he] at hs
    exact hl s hs

/-! ## Merge-loop lemmas -/

theorem demoteLosing_of_ne {w t sid : Nat} {r : Contact} (h : r.id ≠ sid) :
    demoteLosing w t sid r = r := by
  unfold demoteLosing
  rw [if_neg (by simpa using h)]

theorem demoteLosing_of_eq {w t sid : Nat} {r : Contact} (h : r.id = sid) :
    demoteLosing w t sid r =
      { r with linkPrecedence := .secondary, linkedId := some w, updatedAt := t } := by
  unfold demoteLosing
  rw [if_pos (by simpa using h)]

theorem repointChild_of_ne {w t sid : Nat} {r : Contact} (h : r.linkedId ≠ some sid) :
    repointChild w t sid r = r := by
  unfold repointChild
  rw [if_neg (by simpa using h)]

theorem repointChild_of_eq {w t sid : Nat} {r : Contact} (h : r.linkedId = some sid) :
    repointChild w t sid r = { r with linkedId := some w, updatedAt := t } := by
  unfold repointChild
  rw [if_pos (by simpa using h)]

theorem mergeStep_of_untouched {w t sid : Nat} {r : Contact}
    (h1 : r.id ≠ sid) (h2 : r.linkedId ≠ some sid) :
    mergeStep w t sid r = r := by
  unfold mergeStep
  rw [demoteLosing_of_ne h1, repointChild_of_ne h2]

theorem mergeStep_of_demote {w t sid : Nat} {r : Contact}
    (h1 : r.id = sid) (hw : w ≠ sid) :
    mergeStep w t sid r =
      { r with linkPrecedence := .secondary, linkedId := some w, updatedAt := t } := by
  unfold mergeStep
  rw [demoteLosing_of_eq h1]
  exact repointChild_of_ne (by simpa using hw)

theorem mergeStep_of_repoint {w t sid : Nat} {r : Contact}
    (h1 : r.id ≠ sid) (h2 : r.linkedId = some sid) :
    mergeStep w t sid r = { r with linkedId := some w, updatedAt := t } := by
  unfold mergeStep
  rw [demoteLosing_of_ne h1, repointChild_of_eq h2]

theorem demoteLosing_id (w t sid : Nat) (r : Contact) :
    (demoteLosing w t sid r).id = r.id := by
  unfold demoteLosing
  split <;> rfl

theorem repointChild_id (w t sid : Nat) (r : Contact) :
    (repointChild w t sid r).id = r.id := by
  unfold repointChild
  split <;> rfl

theorem mergeStep_id (w t sid : Nat) (r : Contact) :
    (mergeStep w t sid r).id = r.id := by
  unfold mergeStep
  rw [repointChild_id, demoteLosing_id]

theorem demoteLosing_email (w t sid : Nat) (r : Contact) :
    (demoteLosing w t sid r).email = r.email := by
  unfold demoteLosing
  split <;> rfl

theorem repointChild_email (w t sid : Nat) (r : Contact) :
    (repointChild w t sid r).email = r.email := by
  unfold repointChild
  split <;> rfl

theorem mergeStep_email (w t sid : Nat) (r : Contact) :
    (mergeStep w t sid r).email = r.email := by
  unfold mergeStep
  rw [repointChild_email, demoteLosing_email]

theorem demoteLosing_phoneNumber (w t sid : Nat) (r : Contact) :
    (demoteLosing w t sid r).phoneNumber = r.phoneNumber := by
  unfold demoteLosing
  split <;> rfl

theorem repointChild_phoneNumber (w t sid : Nat) (r : Contact) :
    (repointChild w t sid r).phoneNumber = r.phoneNumber := by
  unfold repointChild
  split <;> rfl

theorem mergeStep_phoneNumber (w t sid : Nat) (r : Contact) :
    (mergeStep w t sid r).phoneNumber = r.phoneNumber := by
  unfold mergeStep
  rw [repointChild_phoneNumber, demoteLosing_phoneNumber]

theorem demoteLosing_createdAt (w t sid : Nat) (r : Contact) :
    (demoteLosing w t sid r).createdAt = r.createdAt := by
  unfold demoteLosing
  split <;> rfl

theorem repointChild_createdAt (w t sid : Nat) (r : Contact) :
    (repointChild w t sid r).createdAt = r.createdAt := by
  unfold repointChild
  split <;> rfl

theorem mergeStep_createdAt (w t sid : Nat) (r : Contact) :
    (mergeStep w t sid r).createdAt = r.createdAt := by
  unfold mergeStep
  rw [repointChild_createdAt, demoteLosing_createdAt]

theorem applyMerge_nil (w t : Nat) (r : Contact) : applyMerge w t [] r = r := rfl

theorem applyMerge_cons (w t : Nat) (s : Contact) (ss : List Contact) (r : Contact) :
    applyMerge w t (s :: ss) r = applyMerge w t ss (mergeStep w t s.id r) := rfl

theorem applyMerge_id (w t : Nat) (secs : List Contact) (r : Contact) :
    (applyMerge w t secs r).id = r.id := by
  induction secs generalizing r with
  | nil => rfl
  | cons s ss ih => rw [applyMerge_cons, ih, mergeStep_id]

theorem applyMerge_email (w t : Nat) (secs : List Contact) (r : Contact) :
    (applyMerge w t secs r).email = r.email := by
  induction secs generalizing r with
  | nil => rfl
  | cons s ss ih => rw [applyMerge_cons, ih, mergeStep_email]

theorem applyMerge_phoneNumber (w t : Nat) (secs : List Contact) (r : Contact) :
    (applyMerge w t secs r).phoneNumber = r.phoneNumber := by
  induction secs generalizing r with
  | nil => rfl
  | cons s ss ih => rw [applyMerge_cons, ih, mergeStep_phoneNumber]

theorem applyMerge_createdAt (w t : Nat) (secs : List Contact) (r : Contact) :
    (applyMerge w t secs r).createdAt = r.createdAt := by
  induction secs generalizing r with
  | nil => rfl
  | cons s ss ih => rw [applyMerge_cons, ih, mergeStep_createdAt]

theorem applyMerge_untouched {w t : Nat} {secs : List Contact} {r : Contact}
    (h1 : ∀ s ∈ secs, r.id ≠ s.id) (h2 : ∀ s ∈ secs, r.linkedId ≠ some s.id) :
    applyMerge w t secs r = r := by
  induction secs with
  | nil => rfl
  | cons s ss ih =>
    rw [applyMerge_cons,
      mergeStep_of_untouched (h1 s (List.mem_cons_self s ss)) (h2 s (List.mem_cons_self s ss))]
    exact ih (fun s' hs' => h1 s' (List.mem_cons_of_mem s hs'))
      (fun s' hs' => h2 s' (List.mem_cons_of_mem s hs'))

theorem applyMerge_demote {w t : Nat} {secs : List Contact} {r : Contact}
    (hnd : (secs.map (·.id)).Nodup)
    (hw : ∀ s ∈ secs, w ≠ s.id)
    (hmem : ∃ s ∈ secs, r.id = s.id)
    (hlink : ∀ s ∈ secs, r.linkedId ≠ some s.id) :
    applyMerge w t secs r =
      { r with linkPrecedence := .secondary, linkedId := some w, updatedAt := t } := by
  induction secs with
  | nil => simp at hmem
  | cons s ss ih =>
    rcases hmem with ⟨s0, hs0, hid⟩
    rcases List.mem_cons.1 hs0 with rfl | hs0'
    · rw [applyMerge_cons, mergeStep_of_demote hid (hw s0 (List.mem_cons_self s0 ss))]
      apply applyMerge_untouched
      · intro s' hs'
        show r.id ≠ s'.id
        rw [hid]
        have : s0.id ∉ ss.map (·.id) := by
          have := hnd
          simp only [List.map_cons, List.nodup_cons] at this
          exact this.1
        intro hcon
        exact this (hcon ▸ List.mem_map_of_mem (·.id) hs')
      · intro s' hs'
        show some w ≠ some s'.id
        simpa using hw s' (List.mem_cons_of_mem s0 hs')
    · have hne : r.id ≠ s.id := by
        rw [hid]
        have hnotin : s.id ∉ ss.map (·.id) := by
          simp only [List.map_cons, List.nodup_cons] at hnd
          exact hnd.1
        intro hcon
        exact hnotin (hcon ▸ List.mem_map_of_mem (·.id) hs0')
      rw [applyMerge_cons, mergeStep_of_untouched hne (hlink s (List.mem_cons_self s ss))]
      refine ih ?_ (fun s' hs' => hw s' (List.mem_cons_of_mem s hs')) ⟨s0, hs0', hid⟩
        (fun s' hs' => hlink s' (List.mem_cons_of_mem s hs'))
      simp only [List.map_cons, List.nodup_cons] at hnd
      exact hnd.2

theorem applyMerge_repoint {w t : Nat} {secs : List Contact} {r : Contact} {q : Nat}
    (hw : ∀ s ∈ secs, w ≠ s.id)
    (hid : ∀ s ∈ secs, r.id ≠ s.id)
    (hq : r.linkedId = some q)
    (hqmem : q ∈ secs.map (·.id)) :
    applyMerge w t secs r = { r with linkedId := some w, updatedAt := t } := by
  induction secs with
  | nil => simp at hqmem
  | cons s ss ih =>
    by_cases hqs : q = s.id
    · rw [applyMerge_cons,
        mergeStep_of_repoint (hid s (List.mem_cons_self s ss)) (by rw [hq, hqs])]
      apply applyMerge_untouched
      · intro s' hs'
        exact hid s' (List.mem_cons_of_mem s hs')
      · intro s' hs'
        show some w ≠ some s'.id
        simpa using hw s' (List.mem_cons_of_mem s hs')
    · have hstep : r.linkedId ≠ some s.id := by
        rw [hq]
        simpa using hqs
      rw [applyMerge_cons, mergeStep_of_untouched (hid s (List.mem_cons_self s ss)) hstep]
      have hq' : q ∈ ss.map (·.id) := by
        simp only [List.map_cons, List.mem_cons] at hqmem
        exact hqmem.resolve_left hqs
      exact ih (fun s' hs' => hw s' (List.mem_cons_of_mem s hs'))
        (fun s' hs' => hid s' (List.mem_cons_of_mem s hs')) hq'

theorem mergeLoop_eq_map (w t : Nat) (rows secs : List Contact) :
    mergeLoop w t rows secs = rows.map (applyMerge w t secs) := by
  induction secs generalizing rows with
  | nil =>
    show rows = rows.map (applyMerge w t [])
    rw [show applyMerge w t [] = id from funext fun r => rfl, List.map_id]
  | cons s ss ih =>
    have h1 : mergeLoop w t rows (s :: ss) =
        mergeLoop w t (rows.map (mergeStep w t s.id)) ss := by
      unfold mergeLoop
      rw [List.foldl_cons]
    rw [h1, ih, List.map_map]
    rfl

/-! ## Store-level lemmas -/

theorem eq_of_mem_of_id_eq {rows : List Contact}
    (hp : rows.Pairwise (fun a b => a.id < b.id))
    {r1 r2 : Contact} (h1 : r1 ∈ rows) (h2 : r2 ∈ rows) (h : r1.id = r2.id) :
    r1 = r2 := by
  induction rows with
  | nil => simp at h1
  | cons x xs ih =>
    rcases List.mem_cons.1 h1 with rfl | h1' <;> rcases List.mem_cons.1 h2 with rfl | h2'
    · rfl
    · exact absurd h (Nat.ne_of_lt ((List.rel_of_pairwise_cons hp) h2'))
    · exact absurd h.symm (Nat.ne_of_lt ((List.rel_of_pairwise_cons hp) h1'))
    · exact ih hp.tail h1' h2'

theorem insertByCreatedAt_perm (r : Contact) (s : List Contact) :
    List.Perm (insertByCreatedAt r s) (r :: s) := by
  induction s with
  | nil => rfl
  | cons x xs ih =>
    unfold insertByCreatedAt
    split
    · rfl
    · exact (List.Perm.cons x ih).trans (List.Perm.swap r x xs)

theorem sortByCreatedAt_perm (l : List Contact) :
    List.Perm (sortByCreatedAt l) l := by
  induction l with
  | nil => rfl
  | cons r rs ih =>
    exact (insertByCreatedAt_perm r (sortByCreatedAt rs)).trans (ih.cons r)

theorem mem_sortByCreatedAt {l : List Contact} {r : Contact} :
    r ∈ sortByCreatedAt l ↔ r ∈ l :=
  (sortByCreatedAt_perm l).mem_iff

theorem lexLe_of {a b : Contact} (h1 : a.createdAt ≤ b.createdAt)
    (h2 : a.id ≤ b.id) : lexLe a b := by
  rcases Nat.lt_or_ge a.createdAt b.createdAt with h | h
  · exact Or.inl h
  · exact Or.inr ⟨Nat.le_antisymm h1 h, h2⟩

theorem lexLe_createdAt {a b : Contact} (h : lexLe a b) :
    a.createdAt ≤ b.createdAt := by
  rcases h with h | ⟨h, -⟩
  · exact Nat.le_of_lt h
  · exact Nat.le_of_eq h

theorem insertByCreatedAt_sorted {r : Contact} {s : List Contact}
    (hs : s.Pairwise lexLe) (hid : ∀ x ∈ s, r.id < x.id) :
    (insertByCreatedAt r s).Pairwise lexLe := by
  induction s with
  | nil => exact List.pairwise_singleton lexLe r
  | cons x xs ih =>
    unfold insertByCreatedAt
    split
    · refine List.Pairwise.cons ?_ hs
      intro y hy
      rcases List.mem_cons.1 hy with rfl | hy'
      · exact lexLe_of (by assumption) (Nat.le_of_lt (hid y (List.mem_cons_self y xs)))
      · refine lexLe_of ?_ (Nat.le_of_lt (hid y (List.mem_cons_of_mem x hy')))
        exact Nat.le_trans (by assumption)
          (lexLe_createdAt (List.rel_of_pairwise_cons hs hy'))
    · refine List.Pairwise.cons ?_ (ih hs.tail fun y hy => hid y (List.mem_cons_of_mem x hy))
      intro y hy
      have hy' := (insertByCreatedAt_perm r xs).mem_iff.1 hy
      rcases List.mem_cons.1 hy' with rfl | hy''
      · exact Or.inl (Nat.lt_of_not_le (by assumption))
      · exact List.rel_of_pairwise_cons hs hy''

theorem sortByCreatedAt_sorted {l : List Contact}
    (hl : l.Pairwise (fun a b => a.id < b.id)) :
    (sortByCreatedAt l).Pairwise lexLe := by
  induction l with
  | nil => exact List.Pairwise.nil
  | cons r rs ih =>
    refine insertByCreatedAt_sorted (ih hl.tail) ?_
    intro x hx
    exact List.rel_of_pairwise_cons hl (mem_sortByCreatedAt.1 hx)

theorem mem_fetchPrimaries {db : DB} {ids : List Nat} {r : Contact} :
    r ∈ fetchPrimaries db ids ↔ r ∈ db.rows ∧ r.id ∈ ids := by
  unfold fetchPrimaries
  rw [mem_sortByCreatedAt, List.mem_filter]
  simp

theorem fetchPrimaries_sorted {db : DB} (hInv : Inv db) (ids : List Nat) :
    (fetchPrimaries db ids).Pairwise lexLe :=
  sortByCreatedAt_sorted (hInv.idsSorted.sublist (List.filter_sublist _))

theorem pids_primary {db : DB} (hInv : Inv db) {e p : Option String} (x : Nat)
    (hx : x ∈ primaryIdsOf (matchingContacts db e p)) :
    ∃ q ∈ db.rows, q.id = x ∧ q.linkPrecedence = .primary := by
  rcases mem_primaryIdsOf.1 hx with ⟨c, hc, rfl⟩
  have hcrows : c ∈ db.rows := (List.mem_filter.1 hc).1
  match hpc : c.linkPrecedence with
  | .primary => exact ⟨c, hcrows, by simp [rootId, hpc], hpc⟩
  | .secondary =>
    rcases hInv.secLink c hcrows hpc with ⟨q, hq, hlq, hqp⟩
    exact ⟨q, hq, by simp [rootId, hpc, hlq], hqp⟩

theorem MergeCtx.w_mem {db : DB} {pids : List Nat} {w : Contact} {rest : List Contact}
    (ctx : MergeCtx db pids w rest) : w ∈ db.rows :=
  ((ctx.fetch_iff w).1 (List.mem_cons_self w rest)).1

theorem MergeCtx.w_pid {db : DB} {pids : List Nat} {w : Contact} {rest : List Contact}
    (ctx : MergeCtx db pids w rest) : w.id ∈ pids :=
  ((ctx.fetch_iff w).1 (List.mem_cons_self w rest)).2

theorem MergeCtx.w_pri {db : DB} {pids : List Nat} {w : Contact} {rest : List Contact}
    (ctx : MergeCtx db pids w rest) : w.linkPrecedence = .primary :=
  ctx.all_pri w (List.mem_cons_self w rest)

theorem MergeCtx.rest_mem {db : DB} {pids : List Nat} {w : Contact} {rest : List Contact}
    (ctx : MergeCtx db pids w rest) {s : Contact} (hs : s ∈ rest) : s ∈ db.rows :=
  ((ctx.fetch_iff s).1 (List.mem_cons_of_mem w hs)).1

theorem MergeCtx.rest_pri {db : DB} {pids : List Nat} {w : Contact} {rest : List Contact}
    (ctx : MergeCtx db pids w rest) {s : Contact} (hs : s ∈ rest) :
    s.linkPrecedence = .primary :=
  ctx.all_pri s (List.mem_cons_of_mem w hs)

theorem MergeCtx.w_ne_rest {db : DB} {pids : List Nat} {w : Contact} {rest : List Contact}
    (ctx : MergeCtx db pids w rest) : ∀ s ∈ rest, w.id ≠ s.id := by
  intro s hs hcon
  have hnd := ctx.ids_nodup
  simp only [List.map_cons, List.nodup_cons] at hnd
  exact hnd.1 (hcon ▸ List.mem_map_of_mem (·.id) hs)

theorem MergeCtx.rest_nodup {db : DB} {pids : List Nat} {w : Contact} {rest : List Contact}
    (ctx : MergeCtx db pids w rest) : (rest.map (·.id)).Nodup := by
  have hnd := ctx.ids_nodup
  simp only [List.map_cons, List.nodup_cons] at hnd
  exact hnd.2

theorem mergeCtx_of_fetch {db : DB} (hInv : Inv db) (e p : Option String)
    {w : Contact} {rest : List Contact}
    (hf : fetchPrimaries db (primaryIdsOf (matchingContacts db e p)) = w :: rest) :
    MergeCtx db (primaryIdsOf (matchingContacts db e p)) w rest := by
  constructor
  · intro r
    rw [← hf]
    exact mem_fetchPrimaries
  · intro r hr
    have hmem : r ∈ db.rows ∧ r.id ∈ primaryIdsOf (matchingContacts db e p) :=
      mem_fetchPrimaries.1 (hf ▸ hr)
    rcases pids_primary hInv _ hmem.2 with ⟨q, hq, hqid, hqp⟩
    rw [eq_of_mem_of_id_eq hInv.idsSorted hmem.1 hq hqid.symm]
    exact hqp
  · have hperm : List.Perm (w :: rest)
        (db.rows.filter (fun r => r.id ∈ primaryIdsOf (matchingContacts db e p))) := by
      rw [← hf]
      exact sortByCreatedAt_perm _
    have hpair : (db.rows.filter
        (fun r => r.id ∈ primaryIdsOf (matchingContacts db e p))).Pairwise
          (fun a b => a.id < b.id) :=
      hInv.idsSorted.sublist (List.filter_sublist _)
    have hnd : ((db.rows.filter
        (fun r => r.id ∈ primaryIdsOf (matchingContacts db e p))).map (·.id)).Nodup :=
      List.pairwise_map.2 (hpair.imp fun h => Nat.ne_of_lt h)
    exact ((hperm.map (·.id)).nodup_iff).2 hnd

/-! ## Row-level effect of the merge loop -/

theorem applyMerge_winner {db : DB} {pids : List Nat} {w : Contact} {rest : List Contact}
    (hInv : Inv db) (ctx : MergeCtx db pids w rest) (t : Nat) :
    applyMerge w.id t rest w = w :=
  applyMerge_untouched ctx.w_ne_rest
    (fun s _ => by rw [hInv.priNoLink w ctx.w_mem ctx.w_pri]; simp)

theorem applyMerge_of_primary_notin {db : DB} {pids : List Nat} {w : Contact}
    {rest : List Contact} (hInv : Inv db) (ctx : MergeCtx db pids w rest) (t : Nat)
    {r : Contact} (hr : r ∈ db.rows) (hpri : r.linkPrecedence = .primary)
    (hnotin : r ∉ rest) :
    applyMerge w.id t rest r = r := by
  apply applyMerge_untouched
  · intro s hs hcon
    exact hnotin (eq_of_mem_of_id_eq hInv.idsSorted hr (ctx.rest_mem hs) hcon ▸ hs)
  · intro s _
    rw [hInv.priNoLink r hr hpri]
    simp

theorem applyMerge_of_rest {db : DB} {pids : List Nat} {w : Contact}
    {rest : List Contact} (hInv : Inv db) (ctx : MergeCtx db pids w rest) (t : Nat)
    {r : Contact} (hrrest : r ∈ rest) :
    applyMerge w.id t rest r =
      { r with linkPrecedence := .secondary, linkedId := some w.id, updatedAt := t } :=
  applyMerge_demote ctx.rest_nodup ctx.w_ne_rest ⟨r, hrrest, rfl⟩
    (fun s _ => by
      rw [hInv.priNoLink r (ctx.rest_mem hrrest) (ctx.rest_pri hrrest)]
      simp)

theorem applyMerge_of_secondary {db : DB} {pids : List Nat} {w : Contact}
    {rest : List Contact} (hInv : Inv db) (ctx : MergeCtx db pids w rest) (t : Nat)
    {r : Contact} {q : Nat} (hr : r ∈ db.rows)
    (hsec : r.linkPrecedence = .secondary) (hq : r.linkedId = some q) :
    (q ∈ rest.map (·.id) ∧
      applyMerge w.id t rest r = { r with linkedId := some w.id, updatedAt := t }) ∨
    (q ∉ rest.map (·.id) ∧ applyMerge w.id t rest r = r) := by
  have hid : ∀ s ∈ rest, r.id ≠ s.id := by
    intro s hs hcon
    have heq := eq_of_mem_of_id_eq hInv.idsSorted hr (ctx.rest_mem hs) hcon
    rw [heq, ctx.rest_pri hs] at hsec
    exact absurd hsec (by simp)
  by_cases hqmem : q ∈ rest.map (·.id)
  · exact Or.inl ⟨hqmem, applyMerge_repoint ctx.w_ne_rest hid hq hqmem⟩
  · refine Or.inr ⟨hqmem, applyMerge_untouched hid ?_⟩
    intro s hs hcon
    rw [hq] at hcon
    have : q = s.id := Option.some.inj hcon
    exact hqmem (this ▸ List.mem_map_of_mem (·.id) hs)

/-! ## Invariant preservation -/

theorem inv_append_row {rows : List Contact} {n : Nat} (hInv : Inv ⟨rows, n⟩)
    {c : Contact} (hcid : c.id = n)
    (hc : (c.linkPrecedence = .primary ∧ c.linkedId = none) ∨
          (c.linkPrecedence = .secondary ∧
            ∃ q ∈ rows, c.linkedId = some q.id ∧ q.linkPrecedence = .primary)) :
    Inv ⟨rows ++ [c], n + 1⟩ := by
  constructor
  · exact Nat.succ_pos n
  · show (rows ++ [c]).Pairwise (fun a b => a.id < b.id)
    rw [List.pairwise_append]
    refine ⟨hInv.idsSorted, List.pairwise_singleton _ _, ?_⟩
    intro a ha b hb
    rw [List.mem_singleton.1 hb, hcid]
    exact (hInv.idsBound a ha).2
  · intro r hr
    rcases List.mem_append.1 hr with h | h
    · have hb := hInv.idsBound r h
      exact ⟨hb.1, Nat.lt_succ_of_lt hb.2⟩
    · rw [List.mem_singleton.1 h, hcid]
      exact ⟨hInv.nextPos, Nat.lt_succ_self n⟩
  · intro r hr hsec
    rcases List.mem_append.1 hr with h | h
    · rcases hInv.secLink r h hsec with ⟨q, hq, hlq, hqp⟩
      exact ⟨q, List.mem_append_left _ hq, hlq, hqp⟩
    · rw [List.mem_singleton.1 h] at hsec ⊢
      rcases hc with ⟨hp, -⟩ | ⟨-, q, hq, hlq, hqp⟩
      · rw [hp] at hsec
        exact absurd hsec (by simp)
      · exact ⟨q, List.mem_append_left _ hq, hlq, hqp⟩
  · intro r hr hpri
    rcases List.mem_append.1 hr with h | h
    · exact hInv.priNoLink r h hpri
    · rw [List.mem_singleton.1 h] at hpri ⊢
      rcases hc with ⟨-, hl⟩ | ⟨hs, -⟩
      · exact hl
      · rw [hs] at hpri
        exact absurd hpri (by simp)

theorem inv_after_merge {db : DB} {pids : List Nat} {w : Contact} {rest : List Contact}
    (hInv : Inv db) (ctx : MergeCtx db pids w rest) (t : Nat) :
    Inv ⟨mergeLoop w.id t db.rows rest, db.nextId⟩ := by
  rw [mergeLoop_eq_map]
  have hwmem : w ∈ db.rows.map (applyMerge w.id t rest) := by
    have h1 := List.mem_map_of_mem (applyMerge w.id t rest) ctx.w_mem
    rwa [applyMerge_winner hInv ctx t] at h1
  constructor
  · exact hInv.nextPos
  · show (db.rows.map (applyMerge w.id t rest)).Pairwise (fun a b => a.id < b.id)
    rw [List.pairwise_map]
    exact hInv.idsSorted.imp fun h => by rwa [applyMerge_id, applyMerge_id]
  · intro r' hr'
    rcases List.mem_map.1 hr' with ⟨r, hr, rfl⟩
    rw [applyMerge_id]
    exact hInv.idsBound r hr
  · intro r' hr' hsec'
    rcases List.mem_map.1 hr' with ⟨r, hr, rfl⟩
    match hp : r.linkPrecedence with
    | .primary =>
      by_cases hrest : r ∈ rest
      · refine ⟨w, hwmem, ?_, ctx.w_pri⟩
        rw [applyMerge_of_rest hInv ctx t hrest]
      · rw [applyMerge_of_primary_notin hInv ctx t hr hp hrest] at hsec'
        rw [hp] at hsec'
        exact absurd hsec' (by simp)
    | .secondary =>
      rcases hInv.secLink r hr hp with ⟨q, hqmem, hlq, hqpri⟩
      rcases applyMerge_of_secondary hInv ctx t hr hp hlq with ⟨hin, heq⟩ | ⟨hnin, heq⟩
      · refine ⟨w, hwmem, ?_, ctx.w_pri⟩
        rw [heq]
      · have hqrest : q ∉ rest := fun hcon => hnin (List.mem_map_of_mem (·.id) hcon)
        have hfq : applyMerge w.id t rest q = q :=
          applyMerge_of_primary_notin hInv ctx t hqmem hqpri hqrest
        refine ⟨q, hfq ▸ List.mem_map_of_mem (applyMerge w.id t rest) hqmem, ?_, hqpri⟩
        rw [heq]
        exact hlq
  · intro r' hr' hpri'
    rcases List.mem_map.1 hr' with ⟨r, hr, rfl⟩
    match hp : r.linkPrecedence with
    | .primary =>
      by_cases hrest : r ∈ rest
      · rw [applyMerge_of_rest hInv ctx t hrest] at hpri'
        exact absurd hpri' (by simp)
      · rw [applyMerge_of_primary_notin hInv ctx t hr hp hrest]
        exact hInv.priNoLink r hr hp
    | .secondary =>
      rcases hInv.secLink r hr hp with ⟨q, hqmem, hlq, hqpri⟩
      rcases applyMerge_of_secondary hInv ctx t hr hp hlq with ⟨-, heq⟩ | ⟨-, heq⟩
      · rw [heq] at hpri'
        have : r.linkPrecedence = .primary := hpri'
        rw [hp] at this
        exact absurd this (by simp)
      · rw [heq] at hpri'
        rw [hp] at hpri'
        exact absurd hpri' (by simp)

theorem winner_mem_merged {db : DB} {pids : List Nat} {w : Contact} {rest : List Contact}
    (hInv : Inv db) (ctx : MergeCtx db pids w rest) (t : Nat) :
    w ∈ mergeLoop w.id t db.rows rest := by
  rw [mergeLoop_eq_map]
  have h1 := List.mem_map_of_mem (applyMerge w.id t rest) ctx.w_mem
  rwa [applyMerge_winner hInv ctx t] at h1

theorem identify_preserves_inv (db : DB) (e p : Option String) (t : Nat)
    (hInv : Inv db) : Inv (identify db e p t).2 := by
  by_cases hval : (truthy e || truthy p) = true
  · by_cases hm : matchingContacts db e p = []
    · rw [identify_of_no_match db e p t hval hm]
      exact inv_append_row hInv rfl (Or.inl ⟨rfl, rfl⟩)
    · cases hfetch : fetchPrimaries db (primaryIdsOf (matchingContacts db e p)) with
      | nil =>
        rw [identify_of_fetch_nil db e p t hval hm hfetch]
        exact hInv
      | cons w rest =>
        rw [identify_of_found db e p t w rest hval hm hfetch]
        have ctx := mergeCtx_of_fetch hInv e p hfetch
        unfold identifyFound
        by_cases hnew : hasNewData e p
            (existingEmailsOf (clusterRows (mergeLoop w.id t db.rows rest) w.id))
            (existingPhonesOf (clusterRows (mergeLoop w.id t db.rows rest) w.id)) = true
        · rw [if_pos hnew]
          exact inv_append_row (inv_after_merge hInv ctx t) rfl
            (Or.inr ⟨rfl, w, winner_mem_merged hInv ctx t, rfl, ctx.w_pri⟩)
        · rw [if_neg hnew]
          exact inv_after_merge hInv ctx t
  · rw [identify_of_invalid db e p t hval]
    exact hInv

theorem reachable_inv {db : DB} (h : Reachable db) : Inv db := by
  induction h with
  | base =>
    constructor <;> simp [emptyDB]
  | step db e p t hr ih => exact identify_preserves_inv db e p t ih

theorem insertIdIfAbsent_nodup {l : List Nat} {x : Nat} (h : l.Nodup) :
    (insertIdIfAbsent l x).Nodup := by
  unfold insertIdIfAbsent
  by_cases hx : x ∈ l
  · rw [if_pos hx]
    exact h
  · rw [if_neg hx, List.nodup_append]
    refine ⟨h, List.nodup_singleton x, ?_⟩
    intro a ha hax
    rw [List.mem_singleton] at hax
    exact hx (hax ▸ ha)

theorem foldl_insertId_nodup {cs : List Contact} {acc : List Nat} (h : acc.Nodup) :
    (cs.foldl (fun s c => insertIdIfAbsent s (rootId c)) acc).Nodup := by
  induction cs generalizing acc with
  | nil => exact h
  | cons c cs ih =>
    rw [List.foldl_cons]
    exact ih (insertIdIfAbsent_nodup h)

theorem primaryIdsOf_nodup (cs : List Contact) : (primaryIdsOf cs).Nodup :=
  foldl_insertId_nodup List.nodup_nil

/-! ## Cluster contents after the merge -/

theorem fetch_ne_nil {db : DB} {e p : Option String} (hInv : Inv db)
    (hm : matchingContacts db e p ≠ []) :
    fetchPrimaries db (primaryIdsOf (matchingContacts db e p)) ≠ [] := by
  obtain ⟨c, hc⟩ := List.exists_mem_of_ne_nil _ hm
  have hroot : rootId c ∈ primaryIdsOf (matchingContacts db e p) :=
    mem_primaryIdsOf.2 ⟨c, hc, rfl⟩
  rcases pids_primary hInv _ hroot with ⟨q, hq, hqid, -⟩
  intro hcon
  have hmem : q ∈ fetchPrimaries db (primaryIdsOf (matchingContacts db e p)) :=
    mem_fetchPrimaries.2 ⟨hq, hqid ▸ hroot⟩
  rw [hcon] at hmem
  simp at hmem

theorem mem_matching_of_email {db : DB} (e p : Option String) {r : Contact}
    {v : String} (hr : r ∈ db.rows) (hre : r.email = some v) (he : e = some v) :
    r ∈ matchingContacts db e p := by
  unfold matchingContacts
  rw [List.mem_filter]
  refine ⟨hr, ?_⟩
  unfold matchesRequest
  rw [hre, he]
  simp [sqlEq]

theorem mem_matching_of_phone {db : DB} (e p : Option String) {r : Contact}
    {v : String} (hr : r ∈ db.rows) (hrp : r.phoneNumber = some v) (hp : p = some v) :
    r ∈ matchingContacts db e p := by
  unfold matchingContacts
  rw [List.mem_filter]
  refine ⟨hr, ?_⟩
  unfold matchesRequest
  rw [hrp, hp]
  simp [sqlEq]

theorem merged_row_resolves {db : DB} {pids : List Nat} {w : Contact}
    {rest : List Contact} (hInv : Inv db) (ctx : MergeCtx db pids w rest) (t : Nat)
    {r : Contact} (hr : r ∈ db.rows) (hroot : rootId r ∈ pids) :
    applyMerge w.id t rest r = w ∨
    ((applyMerge w.id t rest r).linkedId = some w.id ∧
     (applyMerge w.id t rest r).linkPrecedence = .secondary) := by
  match hp : r.linkPrecedence with
  | .primary =>
    have hridpids : r.id ∈ pids := by
      have hre : rootId r = r.id := by simp [rootId, hp]
      rwa [hre] at hroot
    have hrwrest : r ∈ w :: rest := (ctx.fetch_iff r).2 ⟨hr, hridpids⟩
    rcases List.mem_cons.1 hrwrest with rfl | hrrest
    · left
      exact applyMerge_winner hInv ctx t
    · right
      rw [applyMerge_of_rest hInv ctx t hrrest]
      exact ⟨rfl, rfl⟩
  | .secondary =>
    rcases hInv.secLink r hr hp with ⟨q, hq, hlq, hqp⟩
    have hqid : q.id ∈ pids := by
      have hre : rootId r = q.id := by simp [rootId, hp, hlq]
      rwa [hre] at hroot
    rcases applyMerge_of_secondary hInv ctx t hr hp hlq with ⟨-, heq⟩ | ⟨hnin, heq⟩
    · right
      rw [heq]
      exact ⟨rfl, hp⟩
    · have hqwr : q ∈ w :: rest := (ctx.fetch_iff q).2 ⟨hq, hqid⟩
      rcases List.mem_cons.1 hqwr with rfl | hqrest
      · right
        rw [heq]
        exact ⟨hlq, hp⟩
      · exact absurd (List.mem_map_of_mem (·.id) hqrest) hnin

theorem merged_mem_cluster {db : DB} {pids : List Nat} {w : Contact}
    {rest : List Contact} (hInv : Inv db) (ctx : MergeCtx db pids w rest) (t : Nat)
    {r : Contact} (hr : r ∈ db.rows) (hroot : rootId r ∈ pids) :
    applyMerge w.id t rest r ∈ clusterRows (mergeLoop w.id t db.rows rest) w.id := by
  unfold clusterRows
  rw [List.mem_filter]
  refine ⟨by rw [mergeLoop_eq_map]; exact List.mem_map_of_mem _ hr, ?_⟩
  rcases merged_row_resolves hInv ctx t hr hroot with h | ⟨h, -⟩ <;> simp [h]

theorem merged_row_root {db : DB} {pids : List Nat} {w : Contact}
    {rest : List Contact} (hInv : Inv db) (ctx : MergeCtx db pids w rest) (t : Nat)
    {r : Contact} (hr : r ∈ db.rows) (hroot : rootId r ∈ pids) :
    rootId (applyMerge w.id t rest r) = w.id := by
  rcases merged_row_resolves hInv ctx t hr hroot with h | ⟨h1, h2⟩
  · rw [h]
    simp [rootId, ctx.w_pri]
  · simp [rootId, h2, h1]

theorem cluster_email_from_store {rows secs : List Contact} {w t : Nat} {s : String}
    (hs : s ∈ existingEmailsOf (clusterRows (mergeLoop w t rows secs) w)) :
    ∃ r ∈ rows, r.email = some s := by
  rcases mem_existingEmailsOf.1 hs with ⟨⟨r', hr', he⟩, -⟩
  have hr'' : r' ∈ mergeLoop w t rows secs := (List.mem_filter.1 hr').1
  rw [mergeLoop_eq_map] at hr''
  rcases List.mem_map.1 hr'' with ⟨r, hr, rfl⟩
  refine ⟨r, hr, ?_⟩
  rw [← applyMerge_email w t secs r]
  exact he

theorem cluster_phone_from_store {rows secs : List Contact} {w t : Nat} {s : String}
    (hs : s ∈ existingPhonesOf (clusterRows (mergeLoop w t rows secs) w)) :
    ∃ r ∈ rows, r.phoneNumber = some s := by
  rcases mem_existingPhonesOf.1 hs with ⟨⟨r', hr', he⟩, -⟩
  have hr'' : r' ∈ mergeLoop w t rows secs := (List.mem_filter.1 hr').1
  rw [mergeLoop_eq_map] at hr''
  rcases List.mem_map.1 hr'' with ⟨r, hr, rfl⟩
  refine ⟨r, hr, ?_⟩
  rw [← applyMerge_phoneNumber w t secs r]
  exact he

theorem known_email_after_merge {db : DB} {pids : List Nat} {w : Contact}
    {rest : List Contact} (hInv : Inv db) (ctx : MergeCtx db pids w rest) (t : Nat)
    {v : String} (hv : v ≠ "")
    (hr : ∃ r ∈ db.rows, r.email = some v ∧ rootId r ∈ pids) :
    v ∈ existingEmailsOf (clusterRows (mergeLoop w.id t db.rows rest) w.id) := by
  rcases hr with ⟨r, hrmem, hre, hroot⟩
  refine mem_existingEmailsOf.2
    ⟨⟨applyMerge w.id t rest r, merged_mem_cluster hInv ctx t hrmem hroot, ?_⟩, hv⟩
  rw [applyMerge_email]
  exact hre

theorem known_phone_after_merge {db : DB} {pids : List Nat} {w : Contact}
    {rest : List Contact} (hInv : Inv db) (ctx : MergeCtx db pids w rest) (t : Nat)
    {v : String} (hv : v ≠ "")
    (hr : ∃ r ∈ db.rows, r.phoneNumber = some v ∧ rootId r ∈ pids) :
    v ∈ existingPhonesOf (clusterRows (mergeLoop w.id t db.rows rest) w.id) := by
  rcases hr with ⟨r, hrmem, hre, hroot⟩
  refine mem_existingPhonesOf.2
    ⟨⟨applyMerge w.id t rest r, merged_mem_cluster hInv ctx t hrmem hroot, ?_⟩, hv⟩
  rw [applyMerge_phoneNumber]
  exact hre

theorem hasNewData_false {e p : Option String} {emails phones : List String}
    (he : ∀ v, e = some v → v ≠ "" → v ∈ emails)
    (hp : ∀ v, p = some v → v ≠ "" → v ∈ phones) :
    hasNewData e p emails phones = false := by
  unfold hasNewData
  rw [Bool.or_eq_false_iff]
  constructor
  · cases e with
    | none => rfl
    | some v =>
      by_cases hv : v = ""
      · simp [hv]
      · simp [hv, he v rfl hv]
  · cases p with
    | none => rfl
    | some v =>
      by_cases hv : v = ""
      · simp [hv]
      · simp [hv, hp v rfl hv]

theorem hasNewData_true_of_phone {e p : Option String} {emails phones : List String}
    {v : String} (hp : p = some v) (hv : v ≠ "") (hnot : v ∉ phones) :
    hasNewData e p emails phones = true := by
  unfold hasNewData
  rw [hp, Bool.or_eq_true_iff]
  right
  simp [hv, hnot]

theorem hasNewData_false_iff {e p : Option String} {emails phones : List String} :
    hasNewData e p emails phones = false ↔
      ((∀ v, e = some v → v ≠ "" → v ∈ emails) ∧
       (∀ v, p = some v → v ≠ "" → v ∈ phones)) := by
  constructor
  · intro h
    constructor
    · intro v hev hv0
      rw [hev] at h
      unfold hasNewData at h
      rw [Bool.or_eq_false_iff] at h
      have h1 := h.1
      simp at h1
      exact h1 hv0
    · intro v hpv hv0
      rw [hpv] at h
      unfold hasNewData at h
      rw [Bool.or_eq_false_iff] at h
      have h1 := h.2
      simp at h1
      exact h1 hv0
  · intro h
    exact hasNewData_false h.1 h.2

theorem mergeLoop_nil (w t : Nat) (rows : List Contact) :
    mergeLoop w t rows [] = rows := rfl

theorem filter_id_singleton {rows : List Contact}
    (hp : rows.Pairwise (fun a b => a.id < b.id))
    {r0 : Contact} (h : r0 ∈ rows) :
    rows.filter (fun r => r.id ∈ [r0.id]) = [r0] := by
  induction rows with
  | nil => simp at h
  | cons x xs ih =>
    rcases List.mem_cons.1 h with rfl | h'
    · rw [List.filter_cons, if_pos (by simp)]
      have hnil : xs.filter (fun r => r.id ∈ [r0.id]) = [] := by
        rw [List.filter_eq_nil_iff]
        intro a ha
        have hlt := List.rel_of_pairwise_cons hp ha
        simp only [List.mem_singleton, decide_eq_true_eq]
        omega
      rw [hnil]
    · have hlt := List.rel_of_pairwise_cons hp h'
      rw [List.filter_cons, if_neg (by
        simp only [List.mem_singleton, decide_eq_true_eq]
        omega)]
      exact ih hp.tail h'

theorem matchesRequest_applyMerge (e p : Option String) (w t : Nat)
    (secs : List Contact) (r : Contact) :
    matchesRequest e p (applyMerge w t secs r) = matchesRequest e p r := by
  unfold matchesRequest
  rw [applyMerge_email, applyMerge_phoneNumber]

theorem mem_emails_appended {cl : List Contact} {c : Contact} {e : Option String}
    {s : String} (hce : c.email = e) :
    s ∈ existingEmailsOf (cl ++ [c]) ↔
      s ∈ (if truthy e then insertStrIfAbsent (existingEmailsOf cl) (e.getD "")
           else existingEmailsOf cl) := by
  rw [mem_existingEmailsOf]
  by_cases ht : truthy e = true
  · rw [if_pos ht, mem_insertStrIfAbsent, mem_existingEmailsOf]
    obtain ⟨v, hev, hv⟩ := truthy_iff.1 ht
    rw [hev]
    simp only [Option.getD_some]
    constructor
    · rintro ⟨⟨r, hr, hre⟩, hs⟩
      rcases List.mem_append.1 hr with h | h
      · exact Or.inl ⟨⟨r, h, hre⟩, hs⟩
      · rw [List.mem_singleton.1 h] at hre
        rw [hce, hev] at hre
        exact Or.inr (Option.some.inj hre).symm
    · rintro (⟨⟨r, hr, hre⟩, hs⟩ | rfl)
      · exact ⟨⟨r, List.mem_append_left _ hr, hre⟩, hs⟩
      · exact ⟨⟨c, List.mem_append_right _ (by simp), by rw [hce, hev]⟩, hv⟩
  · rw [if_neg ht, mem_existingEmailsOf]
    constructor
    · rintro ⟨⟨r, hr, hre⟩, hs⟩
      rcases List.mem_append.1 hr with h | h
      · exact ⟨⟨r, h, hre⟩, hs⟩
      · rw [List.mem_singleton.1 h] at hre
        rw [hce] at hre
        exact absurd (truthy_iff.2 ⟨s, hre, hs⟩) ht
    · rintro ⟨⟨r, hr, hre⟩, hs⟩
      exact ⟨⟨r, List.mem_append_left _ hr, hre⟩, hs⟩

theorem mem_phones_appended {cl : List Contact} {c : Contact} {e : Option String}
    {s : String} (hce : c.phoneNumber = e) :
    s ∈ existingPhonesOf (cl ++ [c]) ↔
      s ∈ (if truthy e then insertStrIfAbsent (existingPhonesOf cl) (e.getD "")
           else existingPhonesOf cl) := by
  rw [mem_existingPhonesOf]
  by_cases ht : truthy e = true
  · rw [if_pos ht, mem_insertStrIfAbsent, mem_existingPhonesOf]
    obtain ⟨v, hev, hv⟩ := truthy_iff.1 ht
    rw [hev]
    simp only [Option.getD_some]
    constructor
    · rintro ⟨⟨r, hr, hre⟩, hs⟩
      rcases List.mem_append.1 hr with h | h
      · exact Or.inl ⟨⟨r, h, hre⟩, hs⟩
      · rw [List.mem_singleton.1 h] at hre
        rw [hce, hev] at hre
        exact Or.inr (Option.some.inj hre).symm
    · rintro (⟨⟨r, hr, hre⟩, hs⟩ | rfl)
      · exact ⟨⟨r, List.mem_append_left _ hr, hre⟩, hs⟩
      · exact ⟨⟨c, List.mem_append_right _ (by simp), by rw [hce, hev]⟩, hv⟩
  · rw [if_neg ht, mem_existingPhonesOf]
    constructor
    · rintro ⟨⟨r, hr, hre⟩, hs⟩
      rcases List.mem_append.1 hr with h | h
      · exact ⟨⟨r, h, hre⟩, hs⟩
      · rw [List.mem_singleton.1 h] at hre
        rw [hce] at hre
        exact absurd (truthy_iff.2 ⟨s, hre, hs⟩) ht
    · rintro ⟨⟨r, hr, hre⟩, hs⟩
      exact ⟨⟨r, List.mem_append_left _ hr, hre⟩, hs⟩

theorem sqlEq_self_of_truthy {x : Option String} (h : truthy x = true) :
    sqlEq x x = true := by
  obtain ⟨v, rfl, -⟩ := truthy_iff.1 h
  simp [sqlEq]

/-- A request whose matching rows all resolve to the single primary `w`, and
whose truthy values are already known in `w`'s cluster, is answered from the
store without modifying it. -/
theorem identify_stable (db1 : DB) (e p : Option String) (t2 : Nat)
    (hInv1 : Inv db1) (w : Contact)
    (hval : (truthy e || truthy p) = true)
    (hwmem : w ∈ db1.rows)
    (hroot : ∀ r ∈ db1.rows, matchesRequest e p r = true → rootId r = w.id)
    (hm2 : matchingContacts db1 e p ≠ [])
    (hke : ∀ v, e = some v → v ≠ "" →
      v ∈ existingEmailsOf (clusterRows db1.rows w.id))
    (hkp : ∀ v, p = some v → v ≠ "" →
      v ∈ existingPhonesOf (clusterRows db1.rows w.id)) :
    identify db1 e p t2 =
      (.ok { primaryContatctId := w.id,
             emails := existingEmailsOf (clusterRows db1.rows w.id),
             phoneNumbers := existingPhonesOf (clusterRows db1.rows w.id),
             secondaryContactIds := finalSecondaryIds db1.rows w.id }, db1) := by
  have hpids2 : primaryIdsOf (matchingContacts db1 e p) = [w.id] :=
    primaryIdsOf_const hm2 (fun c hc =>
      hroot c (List.mem_filter.1 hc).1 (List.mem_filter.1 hc).2)
  have hf2 : fetchPrimaries db1 (primaryIdsOf (matchingContacts db1 e p)) = [w] := by
    rw [hpids2]
    unfold fetchPrimaries
    rw [filter_id_singleton hInv1.idsSorted hwmem]
    rfl
  rw [identify_of_found db1 e p t2 w [] hval hm2 hf2]
  unfold identifyFound
  rw [mergeLoop_nil]
  rw [if_neg (by
    rw [hasNewData_false hke hkp]
    exact Bool.false_ne_true)]

/-! ## Claim theorems -/

/-- C1: when the candidate set resolves to more than one distinct primary id,
the resolver fetches exactly the rows carrying those ids, the fetched list is
ordered by `createdAt` ascending with ties broken by ascending `id`, and
exactly one winner is selected: the first row, which is minimal in that
order; the remaining fetched primaries (the losing ones) are nonempty. -/
theorem cluster_root_resolution (db : DB) (e p : Option String) (hInv : Inv db)
    (hmulti : 1 < (primaryIdsOf (matchingContacts db e p)).length) :
    ∃ w rest, fetchPrimaries db (primaryIdsOf (matchingContacts db e p)) = w :: rest ∧
      rest ≠ [] ∧
      (∀ r, r ∈ w :: rest ↔
        (r ∈ db.rows ∧ r.id ∈ primaryIdsOf (matchingContacts db e p))) ∧
      (w :: rest).Pairwise lexLe ∧
      (∀ q ∈ w :: rest, lexLe w q) := by
  have hnd : (primaryIdsOf (matchingContacts db e p)).Nodup :=
    primaryIdsOf_nodup _
  obtain ⟨x, y, tl, hpids⟩ :
      ∃ x y tl, primaryIdsOf (matchingContacts db e p) = x :: y :: tl := by
    match hp : primaryIdsOf (matchingContacts db e p), hmulti with
    | x :: y :: tl, _ => exact ⟨x, y, tl, rfl⟩
  · have hxy : x ≠ y := by
      rw [hpids, List.nodup_cons] at hnd
      intro hcon
      exact hnd.1 (hcon ▸ List.mem_cons_self y tl)
    rcases pids_primary hInv x (by rw [hpids]; simp) with ⟨qx, hqx, hqxid, -⟩
    rcases pids_primary hInv y (by rw [hpids]; simp) with ⟨qy, hqy, hqyid, -⟩
    have hqxy : qx ≠ qy := fun hcon => hxy (hqxid ▸ hqyid ▸ congrArg (·.id) hcon)
    have hqxf : qx ∈ fetchPrimaries db (primaryIdsOf (matchingContacts db e p)) :=
      mem_fetchPrimaries.2 ⟨hqx, by rw [hpids, hqxid]; simp⟩
    have hqyf : qy ∈ fetchPrimaries db (primaryIdsOf (matchingContacts db e p)) :=
      mem_fetchPrimaries.2 ⟨hqy, by rw [hpids, hqyid]; simp⟩
    match hf : fetchPrimaries db (primaryIdsOf (matchingContacts db e p)) with
    | [] =>
      rw [hf] at hqxf
      simp at hqxf
    | [z] =>
      rw [hf] at hqxf hqyf
      rw [List.mem_singleton] at hqxf hqyf
      exact absurd (hqxf.trans hqyf.symm) hqxy
    | w :: z :: rest =>
      refine ⟨w, z :: rest, rfl, by simp, ?_, ?_, ?_⟩
      · intro r
        rw [← hf]
        exact mem_fetchPrimaries
      · have := fetchPrimaries_sorted hInv (primaryIdsOf (matchingContacts db e p))
        rwa [hf] at this
      · have hsorted := fetchPrimaries_sorted hInv (primaryIdsOf (matchingContacts db e p))
        rw [hf] at hsorted
        intro q hq
        rcases List.mem_cons.1 hq with rfl | hq'
        · exact Or.inr ⟨rfl, Nat.le_refl _⟩
        · exact List.rel_of_pairwise_cons hsorted hq'

/-- Witness for C1: a store with two primaries (ids 1 and 2, created at 10
and 40) and a request bridging them; the winner is row 1. -/
theorem cluster_root_resolution_witness :
    ∃ w rest, fetchPrimaries dbTwo
        (primaryIdsOf (matchingContacts dbTwo (some "a@x") (some "9"))) = w :: rest ∧
      rest ≠ [] ∧
      (∀ r, r ∈ w :: rest ↔
        (r ∈ dbTwo.rows ∧
         r.id ∈ primaryIdsOf (matchingContacts dbTwo (some "a@x") (some "9")))) ∧
      (w :: rest).Pairwise lexLe ∧
      (∀ q ∈ w :: rest, lexLe w q) :=
  cluster_root_resolution dbTwo (some "a@x") (some "9")
    ⟨by decide, by decide, by decide, by decide, by decide⟩ (by decide)

/-- C2: in every store reachable from the empty table by `/identify`
requests, no secondary contact's `linkedId` points at another secondary:
it always resolves in one hop to a primary-precedence contact. -/
theorem no_secondary_chains (db : DB) (hdb : Reachable db) :
    ∀ c ∈ db.rows, c.linkPrecedence = .secondary →
      ∃ q ∈ db.rows, c.linkedId = some q.id ∧ q.linkPrecedence = .primary :=
  (reachable_inv hdb).secLink

/-- Witness for C2: after two concrete requests the store holds a secondary
row (id 2) and its `linkedId` resolves to a primary. -/
theorem no_secondary_chains_witness :
    ∃ q ∈ ((identify (identify emptyDB (some "a@x") (some "1") 10).2
        (some "a@x") (some "2") 20).2).rows,
      ({ id := 2, email := some "a@x", phoneNumber := some "2", linkedId := some 1,
         linkPrecedence := .secondary, createdAt := 20, updatedAt := 20 } :
         Contact).linkedId = some q.id ∧
      q.linkPrecedence = .primary :=
  no_secondary_chains _
    (.step _ _ _ _ (.step _ _ _ _ .base)) _ (by decide) (by decide)

/-- C9: a request supplying neither email nor phoneNumber is answered with the
client error of line 38 before any store operation: the handler returns with
the store untouched. -/
theorem invalid_request_untouched_store (db : DB) (t : Nat) :
    identify db none none t = (.invalidRequest, db) := by
  simp [identify, truthy]

/-- C8: when the matcher finds zero candidates, exactly one new primary row
carrying the request's email and phone is inserted, the merge and new-fact
steps are skipped, and the response is that row's id with empty
`secondaryContactIds`. -/
theorem new_customer_path (db : DB) (e p : Option String) (t : Nat)
    (hv : (truthy e || truthy p) = true)
    (hm : matchingContacts db e p = []) :
    identify db e p t =
      (.ok { primaryContatctId := db.nextId,
             emails := jsFilterBoolean [e],
             phoneNumbers := jsFilterBoolean [p],
             secondaryContactIds := [] },
       ⟨db.rows ++ [{ id := db.nextId, email := e, phoneNumber := p,
                      linkedId := none, linkPrecedence := .primary,
                      createdAt := t, updatedAt := t }],
        db.nextId + 1⟩) := by
  rw [identify_of_no_match db e p t hv hm]
  rfl

/-- Witness for C8 at a concrete input: the very first request inserts row 1
as a primary. -/
theorem new_customer_path_witness :
    identify emptyDB (some "a@x") (some "1") 0 =
      (.ok { primaryContatctId := 1, emails := ["a@x"], phoneNumbers := ["1"],
             secondaryContactIds := [] },
       ⟨[{ id := 1, email := some "a@x", phoneNumber := some "1",
           linkedId := none, linkPrecedence := .primary,
           createdAt := 0, updatedAt := 0 }], 2⟩) :=
  new_customer_path emptyDB (some "a@x") (some "1") 0 (by decide) (by decide)

/-- C10: a success response never contains a falsy entry in `emails` or
`phoneNumbers`: the embedding types the entries as strings (so SQL `NULL` and
JS `undefined`, both modelled by `none`, are excluded by construction), and
no entry is the empty string. -/
theorem response_entries_never_falsy (db : DB) (e p : Option String) (t : Nat)
    (r : ContactResponse) (db2 : DB) (h : identify db e p t = (.ok r, db2)) :
    (∀ s ∈ r.emails, s ≠ "") ∧ (∀ s ∈ r.phoneNumbers, s ≠ "") := by
  by_cases hval : (truthy e || truthy p) = true
  · by_cases hm : matchingContacts db e p = []
    · rw [identify_of_no_match db e p t hval hm] at h
      unfold newCustomer at h
      simp only [Prod.mk.injEq, IdentifyResult.ok.injEq] at h
      obtain ⟨rfl, -⟩ := h
      constructor <;> intro s hs <;> exact (mem_jsFilterBoolean.1 hs).2
    · cases hf : fetchPrimaries db (primaryIdsOf (matchingContacts db e p)) with
      | nil =>
        rw [identify_of_fetch_nil db e p t hval hm hf] at h
        simp at h
      | cons w rest =>
        rw [identify_of_found db e p t w rest hval hm hf] at h
        unfold identifyFound at h
        by_cases hnew : hasNewData e p
            (existingEmailsOf (clusterRows (mergeLoop w.id t db.rows rest) w.id))
            (existingPhonesOf (clusterRows (mergeLoop w.id t db.rows rest) w.id)) = true
        · rw [if_pos hnew] at h
          simp only [Prod.mk.injEq, IdentifyResult.ok.injEq] at h
          obtain ⟨rfl, -⟩ := h
          constructor <;> intro s hs
          · exact ne_empty_of_mem_addRequestValue
              (fun x hx => (mem_existingEmailsOf.1 hx).2) hs
          · exact ne_empty_of_mem_addRequestValue
              (fun x hx => (mem_existingPhonesOf.1 hx).2) hs
        · rw [if_neg hnew] at h
          simp only [Prod.mk.injEq, IdentifyResult.ok.injEq] at h
          obtain ⟨rfl, -⟩ := h
          constructor <;> intro s hs
          · exact (mem_existingEmailsOf.1 hs).2
          · exact (mem_existingPhonesOf.1 hs).2
  · rw [identify_of_invalid db e p t hval] at h
    simp at h

/-- Witness for C10: the first request's response has truthy entries only. -/
theorem response_entries_never_falsy_witness :
    (∀ s ∈ ["a@x"], s ≠ "") ∧ (∀ s ∈ ["1"], s ≠ "") :=
  response_entries_never_falsy emptyDB (some "a@x") (some "1") 0
    { primaryContatctId := 1, emails := ["a@x"], phoneNumbers := ["1"],
      secondaryContactIds := [] }
    ⟨[{ id := 1, email := some "a@x", phoneNumber := some "1",
        linkedId := none, linkPrecedence := .primary,
        createdAt := 0, updatedAt := 0 }], 2⟩ (by decide)

/-- C3 (counterexample): the first request succeeds, yet the response body's
top level is the single field `contact`, not the four claimed field names
(and the inner id field is spelled `primaryContatctId`). -/
theorem response_shape_counterexample :
    (identify emptyDB (some "a@x") (some "1") 0).1 =
      .ok { primaryContatctId := 1, emails := ["a@x"], phoneNumbers := ["1"],
            secondaryContactIds := [] } ∧
    topFields (contactJson
        { primaryContatctId := 1, emails := ["a@x"],
          phoneNumbers := ["1"], secondaryContactIds := [] }) ≠
      ["primaryContactId", "emails", "phoneNumbers", "secondaryContactIds"] :=
  ⟨by decide, by decide⟩

/-- C3 (amended): every successful request produces a body with the single
top-level field `contact` whose value is an object with exactly the four
fields `primaryContatctId` (spelled as in the code), `emails`,
`phoneNumbers` and `secondaryContactIds`, holding an integer, two string
arrays and an integer array. -/
theorem response_shape (db : DB) (e p : Option String) (t : Nat)
    (r : ContactResponse) (db2 : DB) (h : identify db e p t = (.ok r, db2)) :
    contactJson r = .obj [("contact", .obj
      [("primaryContatctId", .num r.primaryContatctId),
       ("emails", .arr (r.emails.map .str)),
       ("phoneNumbers", .arr (r.phoneNumbers.map .str)),
       ("secondaryContactIds", .arr (r.secondaryContactIds.map .num))])] ∧
    topFields (contactJson r) = ["contact"] :=
  ⟨rfl, rfl⟩

/-- Witness for C3's amended theorem at the first concrete request. -/
theorem response_shape_witness :
    contactJson
        { primaryContatctId := 1, emails := ["a@x"],
          phoneNumbers := ["1"], secondaryContactIds := [] } = .obj [("contact", .obj
      [("primaryContatctId", .num 1),
       ("emails", .arr [.str "a@x"]),
       ("phoneNumbers", .arr [.str "1"]),
       ("secondaryContactIds", .arr [])])] ∧
    topFields (contactJson
        { primaryContatctId := 1, emails := ["a@x"],
          phoneNumbers := ["1"], secondaryContactIds := [] }) = ["contact"] :=
  response_shape emptyDB (some "a@x") (some "1") 0
    { primaryContatctId := 1, emails := ["a@x"], phoneNumbers := ["1"],
      secondaryContactIds := [] }
    ⟨[{ id := 1, email := some "a@x", phoneNumber := some "1",
        linkedId := none, linkPrecedence := .primary,
        createdAt := 0, updatedAt := 0 }], 2⟩ (by decide)

/-- C6: a request both of whose truthy identifiers are already present in the
matched cluster inserts no row: the store keeps the same number of rows (the
merge only updates rows in place) and the id counter does not advance. -/
theorem redundant_request_no_insert (db : DB) (e p : Option String) (t : Nat)
    (hInv : Inv db)
    (hv : (truthy e || truthy p) = true)
    (hm : matchingContacts db e p ≠ [])
    (hke : ∀ v, e = some v → v ≠ "" → ∃ r ∈ db.rows, r.email = some v)
    (hkp : ∀ v, p = some v → v ≠ "" → ∃ r ∈ db.rows, r.phoneNumber = some v) :
    ((identify db e p t).2).rows.length = db.rows.length ∧
    ((identify db e p t).2).nextId = db.nextId := by
  cases hf : fetchPrimaries db (primaryIdsOf (matchingContacts db e p)) with
  | nil => exact absurd hf (fetch_ne_nil hInv hm)
  | cons w rest =>
    have ctx := mergeCtx_of_fetch hInv e p hf
    rw [identify_of_found db e p t w rest hv hm hf]
    unfold identifyFound
    have hnew : hasNewData e p
        (existingEmailsOf (clusterRows (mergeLoop w.id t db.rows rest) w.id))
        (existingPhonesOf (clusterRows (mergeLoop w.id t db.rows rest) w.id)) = false := by
      apply hasNewData_false
      · intro v hev hv0
        rcases hke v hev hv0 with ⟨r, hr, hre⟩
        exact known_email_after_merge hInv ctx t hv0
          ⟨r, hr, hre, mem_primaryIdsOf.2 ⟨r, mem_matching_of_email e p hr hre hev, rfl⟩⟩
      · intro v hpv hv0
        rcases hkp v hpv hv0 with ⟨r, hr, hrp⟩
        exact known_phone_after_merge hInv ctx t hv0
          ⟨r, hr, hrp, mem_primaryIdsOf.2 ⟨r, mem_matching_of_phone e p hr hrp hpv, rfl⟩⟩
    rw [if_neg (by simp [hnew])]
    constructor
    · show (mergeLoop w.id t db.rows rest).length = db.rows.length
      rw [mergeLoop_eq_map, List.length_map]
    · rfl

/-- Witness for C6: re-sending the identifiers of an existing primary row
leaves the row count and the id counter unchanged. -/
theorem redundant_request_no_insert_witness :
    ((identify dbOne (some "a@x") (some "1") 50).2).rows.length =
      dbOne.rows.length ∧
    ((identify dbOne (some "a@x") (some "1") 50).2).nextId = dbOne.nextId :=
  redundant_request_no_insert dbOne (some "a@x") (some "1") 50
    ⟨by decide, by decide, by decide, by decide, by decide⟩
    (by decide) (by decide)
    (by
      intro v hev hv0
      exact ⟨row1, by decide, by injection hev with h; rw [← h]; rfl⟩)
    (by
      intro v hpv hv0
      exact ⟨row1, by decide, by injection hpv with h; rw [← h]; rfl⟩)

/-- C7: when the request's email is already known in the matched cluster and
its phone number is known nowhere in the store (hence not in that cluster),
exactly one new row is inserted — a secondary linked to the winning primary,
carrying the request's fields — and the response's `phoneNumbers` contains
the new number. -/
theorem novel_phone_inserts_secondary (db : DB) (e p : Option String) (t : Nat)
    (hInv : Inv db)
    (he : ∃ v, e = some v ∧ v ≠ "" ∧ ∃ r ∈ db.rows, r.email = some v)
    (hp : ∃ u, p = some u ∧ u ≠ "" ∧ ∀ r ∈ db.rows, r.phoneNumber ≠ some u) :
    ∃ w rest r1,
      fetchPrimaries db (primaryIdsOf (matchingContacts db e p)) = w :: rest ∧
      identify db e p t =
        (.ok r1,
         ⟨mergeLoop w.id t db.rows rest ++
            [{ id := db.nextId, email := e, phoneNumber := p,
               linkedId := some w.id, linkPrecedence := .secondary,
               createdAt := t, updatedAt := t }], db.nextId + 1⟩) ∧
      (mergeLoop w.id t db.rows rest).length = db.rows.length ∧
      r1.primaryContatctId = w.id ∧
      (∀ u, p = some u → u ∈ r1.phoneNumbers) := by
  rcases he with ⟨v, hev, hv0, r0, hr0, hr0e⟩
  rcases hp with ⟨u, hpu, hu0, hpnone⟩
  have hv : (truthy e || truthy p) = true := by
    rw [hev]
    simp [truthy, hv0]
  have hm : matchingContacts db e p ≠ [] := by
    intro hcon
    have hmem0 := mem_matching_of_email e p hr0 hr0e hev
    rw [hcon] at hmem0
    simp at hmem0
  cases hf : fetchPrimaries db (primaryIdsOf (matchingContacts db e p)) with
  | nil => exact absurd hf (fetch_ne_nil hInv hm)
  | cons w rest =>
    have ctx := mergeCtx_of_fetch hInv e p hf
    rw [identify_of_found db e p t w rest hv hm hf]
    unfold identifyFound
    have hunot : u ∉ existingPhonesOf
        (clusterRows (mergeLoop w.id t db.rows rest) w.id) := by
      intro hcon
      rcases cluster_phone_from_store hcon with ⟨r, hr, hrp⟩
      exact hpnone r hr hrp
    have hnew : hasNewData e p
        (existingEmailsOf (clusterRows (mergeLoop w.id t db.rows rest) w.id))
        (existingPhonesOf (clusterRows (mergeLoop w.id t db.rows rest) w.id)) = true :=
      hasNewData_true_of_phone hpu hu0 hunot
    rw [if_pos hnew]
    refine ⟨w, rest, _, rfl, rfl, by rw [mergeLoop_eq_map, List.length_map], rfl, ?_⟩
    intro u' hpu'
    have huu : u' = u := by
      rw [hpu] at hpu'
      exact (Option.some.inj hpu').symm
    have htp : truthy p = true := by
      rw [hpu]
      simp [truthy, hu0]
    rw [if_pos htp, huu]
    apply mem_insertStrIfAbsent.2
    right
    rw [hpu]
    rfl

/-- Witness for C7: adding a new phone for a known email inserts one
secondary row under the primary and reports the new number. -/
theorem novel_phone_inserts_secondary_witness :
    ∃ w rest r1,
      fetchPrimaries dbOne
        (primaryIdsOf (matchingContacts dbOne (some "a@x") (some "2"))) = w :: rest ∧
      identify dbOne (some "a@x") (some "2") 20 =
        (.ok r1,
         ⟨mergeLoop w.id 20 dbOne.rows rest ++
            [{ id := dbOne.nextId, email := some "a@x", phoneNumber := some "2",
               linkedId := some w.id, linkPrecedence := .secondary,
               createdAt := 20, updatedAt := 20 }], dbOne.nextId + 1⟩) ∧
      (mergeLoop w.id 20 dbOne.rows rest).length = dbOne.rows.length ∧
      r1.primaryContatctId = w.id ∧
      (∀ u, (some "2" : Option String) = some u → u ∈ r1.phoneNumbers) :=
  novel_phone_inserts_secondary dbOne (some "a@x") (some "2") 20
    ⟨by decide, by decide, by decide, by decide, by decide⟩
    ⟨"a@x", rfl, by decide, row1, by decide, rfl⟩
    ⟨"2", rfl, by decide, by decide⟩

/-- C4: a bridging request over the same two clusters is commutative in
result: when the two requests resolve to the same set of primary ids and
every truthy identifier of both requests is already present in the store,
both requests produce identical responses and identical final stores, and
the shared winning primary is the first fetched row, minimal in
(createdAt, id) order. -/
theorem bridging_merge_commutative (db : DB) (e1 p1 e2 p2 : Option String)
    (t : Nat) (hInv : Inv db)
    (hv1 : (truthy e1 || truthy p1) = true) (hv2 : (truthy e2 || truthy p2) = true)
    (hm1 : matchingContacts db e1 p1 ≠ []) (hm2 : matchingContacts db e2 p2 ≠ [])
    (hpids : ∀ x, x ∈ primaryIdsOf (matchingContacts db e1 p1) ↔
        x ∈ primaryIdsOf (matchingContacts db e2 p2))
    (hke1 : ∀ v, e1 = some v → v ≠ "" → ∃ r ∈ db.rows, r.email = some v)
    (hkp1 : ∀ v, p1 = some v → v ≠ "" → ∃ r ∈ db.rows, r.phoneNumber = some v)
    (hke2 : ∀ v, e2 = some v → v ≠ "" → ∃ r ∈ db.rows, r.email = some v)
    (hkp2 : ∀ v, p2 = some v → v ≠ "" → ∃ r ∈ db.rows, r.phoneNumber = some v) :
    identify db e1 p1 t = identify db e2 p2 t ∧
    ∃ w rest r1 db1,
      fetchPrimaries db (primaryIdsOf (matchingContacts db e1 p1)) = w :: rest ∧
      identify db e1 p1 t = (.ok r1, db1) ∧
      r1.primaryContatctId = w.id ∧
      (∀ q ∈ w :: rest, lexLe w q) := by
  have hfeq : fetchPrimaries db (primaryIdsOf (matchingContacts db e2 p2)) =
      fetchPrimaries db (primaryIdsOf (matchingContacts db e1 p1)):= by
    unfold fetchPrimaries
    have hfilter : db.rows.filter
          (fun r => r.id ∈ primaryIdsOf (matchingContacts db e2 p2)) =
        db.rows.filter
          (fun r => r.id ∈ primaryIdsOf (matchingContacts db e1 p1)) := by
      apply List.filter_congr
      intro r _
      exact decide_eq_decide.2 (hpids r.id).symm
    rw [hfilter]
  cases hf1 : fetchPrimaries db (primaryIdsOf (matchingContacts db e1 p1)) with
  | nil => exact absurd hf1 (fetch_ne_nil hInv hm1)
  | cons w rest =>
    have hf2 : fetchPrimaries db (primaryIdsOf (matchingContacts db e2 p2)) =
        w :: rest := hfeq.trans hf1
    have ctx := mergeCtx_of_fetch hInv e1 p1 hf1
    have hnew1 : hasNewData e1 p1
        (existingEmailsOf (clusterRows (mergeLoop w.id t db.rows rest) w.id))
        (existingPhonesOf (clusterRows (mergeLoop w.id t db.rows rest) w.id)) = false := by
      apply hasNewData_false
      · intro v hev hv0
        rcases hke1 v hev hv0 with ⟨r, hr, hre⟩
        exact known_email_after_merge hInv ctx t hv0
          ⟨r, hr, hre, mem_primaryIdsOf.2 ⟨r, mem_matching_of_email e1 p1 hr hre hev, rfl⟩⟩
      · intro v hpv hv0
        rcases hkp1 v hpv hv0 with ⟨r, hr, hrp⟩
        exact known_phone_after_merge hInv ctx t hv0
          ⟨r, hr, hrp, mem_primaryIdsOf.2 ⟨r, mem_matching_of_phone e1 p1 hr hrp hpv, rfl⟩⟩
    have hnew2 : hasNewData e2 p2
        (existingEmailsOf (clusterRows (mergeLoop w.id t db.rows rest) w.id))
        (existingPhonesOf (clusterRows (mergeLoop w.id t db.rows rest) w.id)) = false := by
      apply hasNewData_false
      · intro v hev hv0
        rcases hke2 v hev hv0 with ⟨r, hr, hre⟩
        refine known_email_after_merge hInv ctx t hv0 ⟨r, hr, hre, ?_⟩
        exact (hpids _).2
          (mem_primaryIdsOf.2 ⟨r, mem_matching_of_email e2 p2 hr hre hev, rfl⟩)
      · intro v hpv hv0
        rcases hkp2 v hpv hv0 with ⟨r, hr, hrp⟩
        refine known_phone_after_merge hInv ctx t hv0 ⟨r, hr, hrp, ?_⟩
        exact (hpids _).2
          (mem_primaryIdsOf.2 ⟨r, mem_matching_of_phone e2 p2 hr hrp hpv, rfl⟩)
    have hid1 : identify db e1 p1 t =
        (.ok { primaryContatctId := w.id,
               emails := existingEmailsOf
                 (clusterRows (mergeLoop w.id t db.rows rest) w.id),
               phoneNumbers := existingPhonesOf
                 (clusterRows (mergeLoop w.id t db.rows rest) w.id),
               secondaryContactIds := finalSecondaryIds
                 (mergeLoop w.id t db.rows rest) w.id },
         ⟨mergeLoop w.id t db.rows rest, db.nextId⟩) := by
      rw [identify_of_found db e1 p1 t w rest hv1 hm1 hf1]
      unfold identifyFound
      rw [if_neg (by simp [hnew1])]
    have hid2 : identify db e2 p2 t =
        (.ok { primaryContatctId := w.id,
               emails := existingEmailsOf
                 (clusterRows (mergeLoop w.id t db.rows rest) w.id),
               phoneNumbers := existingPhonesOf
                 (clusterRows (mergeLoop w.id t db.rows rest) w.id),
               secondaryContactIds := finalSecondaryIds
                 (mergeLoop w.id t db.rows rest) w.id },
         ⟨mergeLoop w.id t db.rows rest, db.nextId⟩) := by
      rw [identify_of_found db e2 p2 t w rest hv2 hm2 hf2]
      unfold identifyFound
      rw [if_neg (by simp [hnew2])]
    refine ⟨hid1.trans hid2.symm, w, rest, _, _, rfl, hid1, rfl, ?_⟩
    have hsorted := fetchPrimaries_sorted hInv (primaryIdsOf (matchingContacts db e1 p1))
    rw [hf1] at hsorted
    intro q hq
    rcases List.mem_cons.1 hq with rfl | hq'
    · exact Or.inr ⟨rfl, Nat.le_refl _⟩
    · exact List.rel_of_pairwise_cons hsorted hq'

/-- Witness for C4: the two assignments of the identifiers of clusters 1 and
2 to (email, phone) give the same response and the same final store, with
row 1 (the older primary) winning. -/
theorem bridging_merge_commutative_witness :
    identify dbTwo (some "a@x") (some "9") 50 =
      identify dbTwo (some "c@x") (some "1") 50 ∧
    ∃ w rest r1 db1,
      fetchPrimaries dbTwo
        (primaryIdsOf (matchingContacts dbTwo (some "a@x") (some "9"))) = w :: rest ∧
      identify dbTwo (some "a@x") (some "9") 50 = (.ok r1, db1) ∧
      r1.primaryContatctId = w.id ∧
      (∀ q ∈ w :: rest, lexLe w q) :=
  bridging_merge_commutative dbTwo (some "a@x") (some "9") (some "c@x") (some "1") 50
    ⟨by decide, by decide, by decide, by decide, by decide⟩
    (by decide) (by decide) (by decide) (by decide)
    (by
      intro x
      rw [show primaryIdsOf (matchingContacts dbTwo (some "a@x") (some "9")) = [1, 2]
            by decide,
          show primaryIdsOf (matchingContacts dbTwo (some "c@x") (some "1")) = [1, 2]
            by decide])
    (by
      intro v hev hv0
      exact ⟨row1, by decide, by injection hev with h; rw [← h]; rfl⟩)
    (by
      intro v hpv hv0
      exact ⟨row2, by decide, by injection hpv with h; rw [← h]; rfl⟩)
    (by
      intro v hev hv0
      exact ⟨row2, by decide, by injection hev with h; rw [← h]; rfl⟩)
    (by
      intro v hpv hv0
      exact ⟨row1, by decide, by injection hpv with h; rw [← h]; rfl⟩)

/-- C5: re-submitting an identical request immediately after a successful run
inserts nothing — the handler returns the store exactly as the first run left
it — and answers with the same `primaryContatctId` and set-equal `emails`,
`phoneNumbers` and `secondaryContactIds`. -/
theorem identify_idempotent (db : DB) (e p : Option String) (t t2 : Nat)
    (hInv : Inv db) (r1 : ContactResponse) (db1 : DB)
    (h1 : identify db e p t = (.ok r1, db1)) :
    ∃ r2, identify db1 e p t2 = (.ok r2, db1) ∧
      r2.primaryContatctId = r1.primaryContatctId ∧
      (∀ s, s ∈ r2.emails ↔ s ∈ r1.emails) ∧
      (∀ s, s ∈ r2.phoneNumbers ↔ s ∈ r1.phoneNumbers) ∧
      (∀ i, i ∈ r2.secondaryContactIds ↔ i ∈ r1.secondaryContactIds) := by
  have hInv1 : Inv db1 := by
    have hx := identify_preserves_inv db e p t hInv
    rw [h1] at hx
    exact hx
  by_cases hval : (truthy e || truthy p) = true
  · by_cases hm : matchingContacts db e p = []
    · rw [identify_of_no_match db e p t hval hm] at h1
      unfold newCustomer at h1
      simp only [Prod.mk.injEq, IdentifyResult.ok.injEq] at h1
      obtain ⟨hr1, hdb1⟩ := h1
      subst hdb1
      subst hr1
      set nr : Contact :=
        { id := db.nextId, email := e, phoneNumber := p, linkedId := none,
          linkPrecedence := .primary, createdAt := t, updatedAt := t } with hnr
      have hnomatch : ∀ r ∈ db.rows, ¬ matchesRequest e p r = true :=
        List.filter_eq_nil_iff.1 hm
      have hmatchnew : matchesRequest e p nr = true := by
        show (sqlEq e e || sqlEq p p) = true
        rcases (by simpa using hval : truthy e = true ∨ truthy p = true) with hte | htp
        · rw [sqlEq_self_of_truthy hte, Bool.true_or]
        · rw [sqlEq_self_of_truthy htp, Bool.or_true]
      have holdid : ∀ r ∈ db.rows, r.id ≠ db.nextId := by
        intro r hr
        have hb := (hInv.idsBound r hr).2
        omega
      have holdlink : ∀ r ∈ db.rows, r.linkedId ≠ some db.nextId := by
        intro r hr
        match hpre : r.linkPrecedence with
        | .primary =>
          rw [hInv.priNoLink r hr hpre]
          simp
        | .secondary =>
          rcases hInv.secLink r hr hpre with ⟨q, hq, hlq, -⟩
          rw [hlq]
          have hb := (hInv.idsBound q hq).2
          intro hcon
          have hqe : q.id = db.nextId := Option.some.inj hcon
          omega
      have hroot : ∀ r ∈ db.rows ++ [nr], matchesRequest e p r = true →
          rootId r = nr.id := by
        intro r hr hmr
        rcases List.mem_append.1 hr with hold | hnew0
        · exact absurd hmr (hnomatch r hold)
        · rw [List.mem_singleton.1 hnew0]
          rfl
      have hm2eq : matchingContacts ⟨db.rows ++ [nr], db.nextId + 1⟩ e p = [nr] := by
        show (db.rows ++ [nr]).filter (matchesRequest e p) = [nr]
        rw [List.filter_append, List.filter_eq_nil_iff.2 hnomatch,
            List.filter_cons, if_pos hmatchnew, List.filter_nil, List.nil_append]
      have hm2 : matchingContacts ⟨db.rows ++ [nr], db.nextId + 1⟩ e p ≠ [] := by
        rw [hm2eq]
        simp
      have hwmem : nr ∈ db.rows ++ [nr] := List.mem_append_right _ (by simp)
      have hcl : clusterRows (db.rows ++ [nr]) nr.id = [nr] := by
        unfold clusterRows
        rw [List.filter_append, List.filter_cons, if_pos (by simp),
            List.filter_nil]
        rw [List.filter_eq_nil_iff.2 ?hold, List.nil_append]
        case hold =>
          intro r hr
          simp only [Bool.or_eq_true, beq_iff_eq, not_or]
          exact ⟨holdid r hr, holdlink r hr⟩
      have hke : ∀ v, e = some v → v ≠ "" →
          v ∈ existingEmailsOf (clusterRows (db.rows ++ [nr]) nr.id) := by
        intro v hev hv0
        rw [hcl]
        exact mem_existingEmailsOf.2 ⟨⟨nr, by simp, hev⟩, hv0⟩
      have hkp : ∀ v, p = some v → v ≠ "" →
          v ∈ existingPhonesOf (clusterRows (db.rows ++ [nr]) nr.id) := by
        intro v hpv hv0
        rw [hcl]
        exact mem_existingPhonesOf.2 ⟨⟨nr, by simp, hpv⟩, hv0⟩
      have hrun2 := identify_stable ⟨db.rows ++ [nr], db.nextId + 1⟩ e p t2
        hInv1 nr hval hwmem hroot hm2 hke hkp
      refine ⟨_, hrun2, rfl, ?_, ?_, ?_⟩
      · intro s
        show s ∈ existingEmailsOf (clusterRows (db.rows ++ [nr]) nr.id) ↔
          s ∈ jsFilterBoolean [e]
        rw [hcl, mem_existingEmailsOf, mem_jsFilterBoolean]
        constructor
        · rintro ⟨⟨r, hr, hre⟩, hs⟩
          rw [List.mem_singleton.1 hr] at hre
          exact ⟨by rw [← hre]; simp, hs⟩
        · rintro ⟨hmem, hs⟩
          rw [List.mem_singleton] at hmem
          exact ⟨⟨nr, by simp, hmem.symm⟩, hs⟩
      · intro s
        show s ∈ existingPhonesOf (clusterRows (db.rows ++ [nr]) nr.id) ↔
          s ∈ jsFilterBoolean [p]
        rw [hcl, mem_existingPhonesOf, mem_jsFilterBoolean]
        constructor
        · rintro ⟨⟨r, hr, hre⟩, hs⟩
          rw [List.mem_singleton.1 hr] at hre
          exact ⟨by rw [← hre]; simp, hs⟩
        · rintro ⟨hmem, hs⟩
          rw [List.mem_singleton] at hmem
          exact ⟨⟨nr, by simp, hmem.symm⟩, hs⟩
      · intro i
        show i ∈ finalSecondaryIds (db.rows ++ [nr]) nr.id ↔ i ∈ ([] : List Nat)
        have hsec : finalSecondaryIds (db.rows ++ [nr]) nr.id = [] := by
          unfold finalSecondaryIds
          rw [List.filter_append, List.filter_eq_nil_iff.2 ?holdl,
              List.filter_cons, if_neg (by simp), List.filter_nil]
          · simp
          case holdl =>
            intro r hr
            simp only [beq_iff_eq]
            exact holdlink r hr
        rw [hsec]
    · cases hf : fetchPrimaries db (primaryIdsOf (matchingContacts db e p)) with
      | nil =>
        rw [identify_of_fetch_nil db e p t hval hm hf] at h1
        simp at h1
      | cons w rest =>
        have ctx := mergeCtx_of_fetch hInv e p hf
        rw [identify_of_found db e p t w rest hval hm hf] at h1
        unfold identifyFound at h1
        by_cases hnew : hasNewData e p
            (existingEmailsOf (clusterRows (mergeLoop w.id t db.rows rest) w.id))
            (existingPhonesOf (clusterRows (mergeLoop w.id t db.rows rest) w.id)) = true
        · rw [if_pos hnew] at h1
          simp only [Prod.mk.injEq, IdentifyResult.ok.injEq] at h1
          obtain ⟨hr1, hdb1⟩ := h1
          subst hdb1
          subst hr1
          set rows1 := mergeLoop w.id t db.rows rest with hrows1
          set nr : Contact :=
            { id := db.nextId, email := e, phoneNumber := p,
              linkedId := some w.id, linkPrecedence := .secondary,
              createdAt := t, updatedAt := t } with hnr
          have hwmem : w ∈ rows1 ++ [nr] :=
            List.mem_append_left _ (winner_mem_merged hInv ctx t)
          have hroot : ∀ r ∈ rows1 ++ [nr], matchesRequest e p r = true →
              rootId r = w.id := by
            intro r hr hmr
            rcases List.mem_append.1 hr with hr1 | hrnr
            · rw [hrows1, mergeLoop_eq_map] at hr1
              rcases List.mem_map.1 hr1 with ⟨r0, hr0, rfl⟩
              rw [matchesRequest_applyMerge] at hmr
              exact merged_row_root hInv ctx t hr0
                (mem_primaryIdsOf.2 ⟨r0, List.mem_filter.2 ⟨hr0, hmr⟩, rfl⟩)
            · rw [List.mem_singleton.1 hrnr]
              rfl
          have hm2 : matchingContacts ⟨rows1 ++ [nr], db.nextId + 1⟩ e p ≠ [] := by
            obtain ⟨c0, hc0⟩ := List.exists_mem_of_ne_nil _ hm
            have hc0m : matchesRequest e p c0 = true := (List.mem_filter.1 hc0).2
            have hc0r : c0 ∈ db.rows := (List.mem_filter.1 hc0).1
            have hmap : applyMerge w.id t rest c0 ∈ rows1 := by
              rw [hrows1, mergeLoop_eq_map]
              exact List.mem_map_of_mem _ hc0r
            intro hcon
            have hmm : applyMerge w.id t rest c0 ∈
                matchingContacts ⟨rows1 ++ [nr], db.nextId + 1⟩ e p :=
              List.mem_filter.2 ⟨List.mem_append_left _ hmap,
                by rw [matchesRequest_applyMerge]; exact hc0m⟩
            rw [hcon] at hmm
            simp at hmm
          have hke2 : ∀ v, e = some v → v ≠ "" →
              v ∈ existingEmailsOf (clusterRows (rows1 ++ [nr]) w.id) := by
            intro v hev hv0
            refine mem_existingEmailsOf.2 ⟨⟨nr, ?_, hev⟩, hv0⟩
            exact List.mem_filter.2 ⟨List.mem_append_right _ (by simp), by simp⟩
          have hkp2 : ∀ v, p = some v → v ≠ "" →
              v ∈ existingPhonesOf (clusterRows (rows1 ++ [nr]) w.id) := by
            intro v hpv hv0
            refine mem_existingPhonesOf.2 ⟨⟨nr, ?_, hpv⟩, hv0⟩
            exact List.mem_filter.2 ⟨List.mem_append_right _ (by simp), by simp⟩
          have hrun2 := identify_stable ⟨rows1 ++ [nr], db.nextId + 1⟩ e p t2
            hInv1 w hval hwmem hroot hm2 hke2 hkp2
          have hclapp : clusterRows (rows1 ++ [nr]) w.id =
              clusterRows rows1 w.id ++ [nr] := by
            unfold clusterRows
            rw [List.filter_append, List.filter_cons, if_pos (by simp),
                List.filter_nil]
          refine ⟨_, hrun2, rfl, ?_, ?_, ?_⟩
          · intro s
            show s ∈ existingEmailsOf (clusterRows (rows1 ++ [nr]) w.id) ↔
              s ∈ (if truthy e then
                insertStrIfAbsent (existingEmailsOf (clusterRows rows1 w.id)) (e.getD "")
                else existingEmailsOf (clusterRows rows1 w.id))
            rw [hclapp]
            exact mem_emails_appended rfl
          · intro s
            show s ∈ existingPhonesOf (clusterRows (rows1 ++ [nr]) w.id) ↔
              s ∈ (if truthy p then
                insertStrIfAbsent (existingPhonesOf (clusterRows rows1 w.id)) (p.getD "")
                else existingPhonesOf (clusterRows rows1 w.id))
            rw [hclapp]
            exact mem_phones_appended rfl
          · intro i
            exact Iff.rfl
        · rw [if_neg hnew] at h1
          simp only [Prod.mk.injEq, IdentifyResult.ok.injEq] at h1
          obtain ⟨hr1, hdb1⟩ := h1
          subst hdb1
          subst hr1
          set rows1 := mergeLoop w.id t db.rows rest with hrows1
          have hnewf : hasNewData e p
              (existingEmailsOf (clusterRows rows1 w.id))
              (existingPhonesOf (clusterRows rows1 w.id)) = false := by
            revert hnew
            cases hasNewData e p
              (existingEmailsOf (clusterRows rows1 w.id))
              (existingPhonesOf (clusterRows rows1 w.id)) <;> simp
          obtain ⟨hkeF, hkpF⟩ := hasNewData_false_iff.1 hnewf
          have hwmem : w ∈ rows1 := winner_mem_merged hInv ctx t
          have hroot : ∀ r ∈ rows1, matchesRequest e p r = true →
              rootId r = w.id := by
            intro r hr hmr
            rw [hrows1, mergeLoop_eq_map] at hr
            rcases List.mem_map.1 hr with ⟨r0, hr0, rfl⟩
            rw [matchesRequest_applyMerge] at hmr
            exact merged_row_root hInv ctx t hr0
              (mem_primaryIdsOf.2 ⟨r0, List.mem_filter.2 ⟨hr0, hmr⟩, rfl⟩)
          have hm2 : matchingContacts ⟨rows1, db.nextId⟩ e p ≠ [] := by
            obtain ⟨c0, hc0⟩ := List.exists_mem_of_ne_nil _ hm
            have hc0m : matchesRequest e p c0 = true := (List.mem_filter.1 hc0).2
            have hc0r : c0 ∈ db.rows := (List.mem_filter.1 hc0).1
            have hmap : applyMerge w.id t rest c0 ∈ rows1 := by
              rw [hrows1, mergeLoop_eq_map]
              exact List.mem_map_of_mem _ hc0r
            intro hcon
            have hmm : applyMerge w.id t rest c0 ∈
                matchingContacts ⟨rows1, db.nextId⟩ e p :=
              List.mem_filter.2 ⟨hmap,
                by rw [matchesRequest_applyMerge]; exact hc0m⟩
            rw [hcon] at hmm
            simp at hmm
          have hrun2 := identify_stable ⟨rows1, db.nextId⟩ e p t2
            hInv1 w hval hwmem hroot hm2 hkeF hkpF
          exact ⟨_, hrun2, rfl, fun s => Iff.rfl, fun s => Iff.rfl, fun i => Iff.rfl⟩
  · rw [identify_of_invalid db e p t hval] at h1
    simp at h1

/-- Witness for C5: after the first request creates a primary, re-sending the
identical request returns the same response and leaves the store unchanged. -/
theorem identify_idempotent_witness :
    ∃ r2, identify
        (⟨[{ id := 1, email := some "a@x", phoneNumber := some "1",
             linkedId := none, linkPrecedence := .primary,
             createdAt := 0, updatedAt := 0 }], 2⟩ : DB) (some "a@x") (some "1") 5 =
      (.ok r2,
       (⟨[{ id := 1, email := some "a@x", phoneNumber := some "1",
            linkedId := none, linkPrecedence := .primary,
            createdAt := 0, updatedAt := 0 }], 2⟩ : DB)) ∧
      r2.primaryContatctId =
        ({ primaryContatctId := 1, emails := ["a@x"], phoneNumbers := ["1"],
           secondaryContactIds := [] } : ContactResponse).primaryContatctId ∧
      (∀ s, s ∈ r2.emails ↔
        s ∈ ({ primaryContatctId := 1, emails := ["a@x"], phoneNumbers := ["1"],
               secondaryContactIds := [] } : ContactResponse).emails) ∧
      (∀ s, s ∈ r2.phoneNumbers ↔
        s ∈ ({ primaryContatctId := 1, emails := ["a@x"], phoneNumbers := ["1"],
               secondaryContactIds := [] } : ContactResponse).phoneNumbers) ∧
      (∀ i, i ∈ r2.secondaryContactIds ↔
        i ∈ ({ primaryContatctId := 1, emails := ["a@x"], phoneNumbers := ["1"],
               secondaryContactIds := [] } : ContactResponse).secondaryContactIds) :=
  identify_idempotent emptyDB (some "a@x") (some "1") 0 5
    ⟨by decide, by decide, by decide, by decide, by decide⟩
    { primaryContatctId := 1, emails := ["a@x"], phoneNumbers := ["1"],
      secondaryContactIds := [] }
    (⟨[{ id := 1, email := some "a@x", phoneNumber := some "1",
         linkedId := none, linkPrecedence := .primary,
         createdAt := 0, updatedAt := 0 }], 2⟩ : DB)
    (by decide)

end BitSpeed
